import Mathlib

/-!
Verification of the opponent-modeling and decision core of the fighter skill:
`opponent_model.py`, `bankroll.py`, `strategy.py` and `psychology.py`.

Embedding conventions:
* Python dicts and `collections.Counter` objects are modeled as
  insertion-ordered association lists (`Assoc`), matching Python's ordered
  dict semantics (a fresh key is appended at the end, an existing key is
  updated in place).
* Python floats are modeled as rationals (`ℚ`); `int(x)` is truncation
  toward zero (`pyInt`).
* `random.choice([ROCK, PAPER, SCISSORS])` and `random.random()` are driven
  by explicit oracle parameters (a `Nat` index, resp. a `ℚ` draw).
* A Python `KeyError` (dictionary lookup miss, e.g. `COUNTER[m]` on an
  invalid move) is modeled by `Option`: `none` means the function raises.
* `time.time()` is passed in as an explicit `now : Nat` argument.
-/

/-- Insertion-ordered association list, modeling a Python dict / Counter. -/
abbrev Assoc (K V : Type) : Type := List (K × V)

/-- First-match lookup, modeling `d.get(k)` / `k in d`. -/
def lookupA {K V : Type} [DecidableEq K] : Assoc K V → K → Option V
  | [], _ => none
  | (a, v) :: t, k => if a = k then some v else lookupA t k

/-- `d.get(k, default)`. -/
def lookupD {K V : Type} [DecidableEq K] (l : Assoc K V) (k : K) (d : V) : V :=
  (lookupA l k).getD d

/-- Python `Counter` increment `c[k] += 1`: bump an existing key in place,
append a fresh key at the end. -/
def incr {K : Type} [DecidableEq K] : Assoc K Nat → K → Assoc K Nat
  | [], k => [(k, 1)]
  | (a, n) :: t, k => if a = k then (a, n + 1) :: t else (a, n) :: incr t k

/-- Nested increment for `{from: Counter({to: n})}` transition tables:
`if f not in tr: tr[f] = Counter()` followed by `tr[f][t] += 1`. -/
def incr2 {K : Type} [DecidableEq K] : Assoc K (Assoc K Nat) → K → K → Assoc K (Assoc K Nat)
  | [], f, t => [(f, [(t, 1)])]
  | (a, c) :: rest, f, t =>
      if a = f then (a, incr c t) :: rest else (a, c) :: incr2 rest f t

/-- Update the (first) entry at a key with a function, leaving other entries
alone; models mutating `d[k]` for a key known to be present. -/
def updFirst {K V : Type} [DecidableEq K] : Assoc K V → K → (V → V) → Assoc K V
  | [], _, _ => []
  | (a, v) :: t, k, f => if a = k then (a, f v) :: t else (a, v) :: updFirst t k f

/-- `sum(counter.values())`. -/
def sumCounts {K : Type} (l : Assoc K Nat) : Nat := (l.map Prod.snd).sum

/-- Python `Counter.most_common(1)[0]`: the first key, in insertion order,
attaining the maximal count (Python's sort is stable and descending). -/
def mostCommon {K : Type} : Assoc K Nat → Option (K × Nat)
  | [] => none
  | (k, n) :: t =>
      match mostCommon t with
      | none => some (k, n)
      | some (k2, n2) => if n2 > n then some (k2, n2) else some (k, n)

/-- `collections.Counter(iterable)`. -/
def mkCounter {K : Type} [DecidableEq K] (l : List K) : Assoc K Nat := l.foldl incr []

/-- Python `int()` applied to a (rational-modeled) float: truncation toward
zero. -/
def pyInt (q : ℚ) : Int := if q < 0 then -((-q).floor) else q.floor

/-- ASCII model of Python `str.lower()` on one character (opponent addresses
are ASCII hex strings). -/
def pyLowerChar (c : Char) : Char :=
  if 65 ≤ c.toNat ∧ c.toNat ≤ 90 then Char.ofNat (c.toNat + 32) else c

/-- ASCII model of Python `str.lower()`. -/
def pyLower (s : String) : String := ⟨s.data.map pyLowerChar⟩

/-! ## opponent_model.py -/

/-- One entry of `match_results`:
`{"won": ..., "my_score": ..., "opp_score": ..., "timestamp": ...}`. -/
structure MatchResult where
  won : Bool
  my_score : Int
  opp_score : Int
  timestamp : Nat
deriving DecidableEq, Repr

/-- One entry of `strategy_performance`: `{"wins": w, "losses": l, "draws": d}`. -/
structure StratPerf where
  wins : Nat
  losses : Nat
  draws : Nat
deriving DecidableEq, Repr

/-- The `poker_stats` dict as initialized by `update_poker_stats`;
`none` models the initial empty dict `{}`. -/
structure PokerStats where
  hands_seen : List Int
  fold_count : Nat
  game_count : Nat
  total_extra_bets : Int
  aggression : ℚ
  fold_rate : ℚ
deriving DecidableEq, Repr

/-- One entry of `auction_stats["bids"]`. -/
structure AuctionBid where
  shade_pct : ℚ
  won : Bool
deriving DecidableEq, Repr

/-- The `auction_stats` dict; `none` models the initial empty dict `{}`. -/
structure AuctionStats where
  bids : List AuctionBid
  avg_shade_pct : ℚ
deriving DecidableEq, Repr

/-- `OpponentModel`: per-opponent statistics (opponent_model.py). -/
structure OpponentModel where
  opponent_addr : String
  move_counts : Assoc Int Nat
  transitions : Assoc String (Assoc String Nat)
  match_results : List MatchResult
  round_history : List (Int × Int)
  last_updated : Nat
  strategy_performance : Assoc String StratPerf
  poker_stats : Option PokerStats
  auction_stats : Option AuctionStats
  strategy_cooldowns : Assoc String Int
deriving DecidableEq, Repr

/-- `OpponentModel.__init__`. -/
def mkOpponentModel (addr : String) : OpponentModel :=
  { opponent_addr := pyLower addr
    move_counts := []
    transitions := []
    match_results := []
    round_history := []
    last_updated := 0
    strategy_performance := []
    poker_stats := none
    auction_stats := none
    strategy_cooldowns := [] }

/-- `m in VALID_MOVES` for `VALID_MOVES = {1, 2, 3}`. -/
def isValidMove (m : Int) : Bool := m == 1 || m == 2 || m == 3

/-- Both components of a round are valid RPS moves. -/
def validRound (p : Int × Int) : Bool := isValidMove p.1 && isValidMove p.2

/-- The `for _, opp_move in valid_rounds: self.move_counts[opp_move] += 1` loop. -/
def addMoveCounts (mc : Assoc Int Nat) (rounds : List (Int × Int)) : Assoc Int Nat :=
  rounds.foldl (fun acc r => incr acc r.2) mc

/-- The transition-update loop of `OpponentModel.update` (keys are `str(move)`). -/
def addTransitions (tr : Assoc String (Assoc String Nat)) (oppMoves : List Int) :
    Assoc String (Assoc String Nat) :=
  (oppMoves.zip oppMoves.tail).foldl (fun acc p => incr2 acc (toString p.1) (toString p.2)) tr

/-- `OpponentModel.update(game_round_history, won, my_score, opp_score)`. -/
def OpponentModel.update (m : OpponentModel) (game_round_history : List (Int × Int))
    (won : Option Bool) (my_score opp_score : Int) (now : Nat) : OpponentModel :=
  if game_round_history.isEmpty then
    match won with
    | some w =>
        { m with
          match_results := m.match_results ++ [⟨w, my_score, opp_score, now⟩]
          last_updated := now }
    | none => m
  else
    let valid := game_round_history.filter validRound
    if valid.isEmpty then
      match won with
      | some w =>
          { m with
            match_results := m.match_results ++ [⟨w, my_score, opp_score, now⟩]
            last_updated := now }
      | none => m
    else
      let oppMoves := valid.map Prod.snd
      let m1 :=
        { m with
          move_counts := addMoveCounts m.move_counts valid
          transitions := addTransitions m.transitions oppMoves
          round_history := m.round_history ++ valid
          last_updated := now }
      match won with
      | some w => { m1 with match_results := m.match_results ++ [⟨w, my_score, opp_score, now⟩] }
      | none => m1

/-- `OpponentModel.get_total_games`. -/
def OpponentModel.get_total_games (m : OpponentModel) : Nat := m.match_results.length

/-- `OpponentModel.get_win_rate`. -/
def OpponentModel.get_win_rate (m : OpponentModel) : ℚ :=
  if m.match_results.isEmpty then 1/2
  else ((m.match_results.countP (fun r => r.won)) : ℚ) / (m.match_results.length : ℚ)

/-- `OpponentModel.get_strategy_accuracy`. -/
def OpponentModel.get_strategy_accuracy (m : OpponentModel) (name : String) : ℚ :=
  match lookupA m.strategy_performance name with
  | none => 1/2
  | some p =>
      let total := p.wins + p.losses + p.draws
      if total = 0 then 1/2
      else ((p.wins : ℚ) + (p.draws : ℚ) * (1/2)) / (total : ℚ)

/-- The `self.strategy_performance[strategy_name][result] += 1` step (a no-op
for a result outside `("wins", "losses", "draws")`). -/
def bumpStrat (p : StratPerf) (result : String) : StratPerf :=
  if result = "wins" then { p with wins := p.wins + 1 }
  else if result = "losses" then { p with losses := p.losses + 1 }
  else if result = "draws" then { p with draws := p.draws + 1 }
  else p

/-- `OpponentModel.record_rps_strategy`. -/
def OpponentModel.record_rps_strategy (m : OpponentModel) (name result : String) :
    OpponentModel :=
  let perf0 :=
    match lookupA m.strategy_performance name with
    | none => m.strategy_performance ++ [(name, ⟨0, 0, 0⟩)]
    | some _ => m.strategy_performance
  { m with strategy_performance := updFirst perf0 name (fun p => bumpStrat p result) }

/-- `OpponentModel.update_poker_stats` (the `won` argument is unused in the
source as well). -/
def OpponentModel.update_poker_stats (m : OpponentModel) (opp_hand opp_extra_bets : Int)
    (folded : Bool) (won : Bool) (wager : Int) (now : Nat) : OpponentModel :=
  let s0 : PokerStats := m.poker_stats.getD ⟨[], 0, 0, 0, 0, 0⟩
  let gc := s0.game_count + 1
  let hands := if opp_hand > 0 then s0.hands_seen ++ [opp_hand] else s0.hands_seen
  let fc := if folded then s0.fold_count + 1 else s0.fold_count
  let teb := s0.total_extra_bets + opp_extra_bets
  let fr : ℚ := if gc > 0 then (fc : ℚ) / (gc : ℚ) else 0
  let ag : ℚ := if gc > 0 ∧ wager > 0 then (teb : ℚ) / ((gc : ℚ) * (wager : ℚ)) else s0.aggression
  let _ := won
  { m with
    poker_stats := some
      { hands_seen := hands, fold_count := fc, game_count := gc,
        total_extra_bets := teb, aggression := ag, fold_rate := fr }
    last_updated := now }

/-- `OpponentModel.update_auction_stats`. -/
def OpponentModel.update_auction_stats (m : OpponentModel) (opp_bid wager : Int)
    (won : Bool) (now : Nat) : OpponentModel :=
  let s0 : AuctionStats := m.auction_stats.getD ⟨[], 0⟩
  let shade : ℚ := if wager > 0 then (opp_bid : ℚ) / (wager : ℚ) * 100 else 50
  let bids := s0.bids ++ [⟨shade, won⟩]
  let avg : ℚ := (bids.map AuctionBid.shade_pct).sum / (bids.length : ℚ)
  { m with auction_stats := some { bids := bids, avg_shade_pct := avg }, last_updated := now }

/-- The JSON-compatible dict produced by `OpponentModel.to_dict`. -/
structure ModelDict where
  opponent_addr : String
  move_counts : Assoc Int Nat
  transitions : Assoc String (Assoc String Nat)
  match_results : List MatchResult
  round_history : List (Int × Int)
  last_updated : Nat
  strategy_performance : Assoc String StratPerf
  poker_stats : Option PokerStats
  auction_stats : Option AuctionStats
  strategy_cooldowns : Assoc String Int
deriving DecidableEq, Repr

/-- `OpponentModel.to_dict`; `dict(self.move_counts)` and
`{k: dict(v) for k, v in self.transitions.items()}` keep entries in order. -/
def OpponentModel.to_dict (m : OpponentModel) : ModelDict :=
  { opponent_addr := m.opponent_addr
    move_counts := m.move_counts
    transitions := m.transitions.map (fun kv => (kv.1, kv.2))
    match_results := m.match_results
    round_history := m.round_history
    last_updated := m.last_updated
    strategy_performance := m.strategy_performance
    poker_stats := m.poker_stats
    auction_stats := m.auction_stats
    strategy_cooldowns := m.strategy_cooldowns }

/-- `OpponentModel.from_dict`; `int(k)` on a key that is already an int is the
identity, and `tuple(r)` on a pair is the identity. -/
def OpponentModel.from_dict (d : ModelDict) : OpponentModel :=
  let base := mkOpponentModel d.opponent_addr
  { base with
    move_counts := d.move_counts.map (fun kv => (kv.1, kv.2))
    transitions := d.transitions.map (fun kv => (kv.1, kv.2.map (fun e => (e.1, e.2))))
    match_results := d.match_results
    round_history := d.round_history.map (fun r => (r.1, r.2))
    last_updated := d.last_updated
    strategy_performance := d.strategy_performance
    poker_stats := d.poker_stats
    auction_stats := d.auction_stats
    strategy_cooldowns := d.strategy_cooldowns }

/-- One call to a public mutator of `OpponentModel`. -/
inductive ModelOp where
  | upd (hist : List (Int × Int)) (won : Option Bool) (my_score opp_score : Int) (now : Nat)
  | rps (name result : String)
  | poker (opp_hand opp_extra_bets : Int) (folded won : Bool) (wager : Int) (now : Nat)
  | auction (opp_bid wager : Int) (won : Bool) (now : Nat)

/-- Apply one public mutator call. -/
def applyOp (m : OpponentModel) : ModelOp → OpponentModel
  | .upd h w s o now => m.update h w s o now
  | .rps n r => m.record_rps_strategy n r
  | .poker oh oeb f w wg now => m.update_poker_stats oh oeb f w wg now
  | .auction ob wg w now => m.update_auction_stats ob wg w now

/-- One call to `OpponentModel.update` (arguments only). -/
structure UpdateCall where
  hist : List (Int × Int)
  won : Option Bool
  my_score : Int
  opp_score : Int
  now : Nat

/-- Apply one `update()` call. -/
def applyUpdateCall (m : OpponentModel) (c : UpdateCall) : OpponentModel :=
  m.update c.hist c.won c.my_score c.opp_score c.now

/-! ## bankroll.py -/

/-- `recommend_wager(balance_wei, win_prob, min_wager_wei, max_wager_wei)`. -/
def recommend_wager (balance_wei : Int) (win_prob : ℚ)
    (min_wager_wei max_wager_wei : Int) : Int :=
  let edge := 2 * win_prob - 1
  if edge ≤ 0 then min_wager_wei
  else
    let safe_fraction := edge / 2
    let fraction := min safe_fraction (1/20)
    let wager := pyInt ((balance_wei : ℚ) * fraction)
    let wager := max min_wager_wei (min wager max_wager_wei)
    if balance_wei < min_wager_wei * 10 then min_wager_wei else wager

/-- `estimate_win_prob(opponent_addr, model_store)`; `model_store.get` returns
the opponent's model, which we take directly. -/
def estimate_win_prob (m : OpponentModel) : ℚ :=
  if m.get_total_games = 0 then 1/2
  else
    let games : ℚ := (m.get_total_games : ℚ)
    let observed_rate := m.get_win_rate
    let weight := games / (games + 5)
    weight * observed_rate + (1 - weight) * (1/2)

/-! ## strategy.py — RPS predictors -/

/-- `COUNTER = {ROCK: PAPER, PAPER: SCISSORS, SCISSORS: ROCK}`; `none` models
a `KeyError` on an invalid key. -/
def COUNTER (m : Int) : Option Int :=
  if m = 1 then some 2 else if m = 2 then some 3 else if m = 3 then some 1 else none

/-- `random.choice([ROCK, PAPER, SCISSORS])`, driven by an oracle index. -/
def choiceRPS (i : Nat) : Int := [1, 2, 3].getD (i % 3) 1

/-- `frequency_predict(history)`. -/
def frequency_predict (r : Nat) (history : List (Int × Int)) : Option (Int × ℚ) :=
  if history.isEmpty then some (choiceRPS r, 0)
  else
    let opp_moves := history.map Prod.snd
    let freq := mkCounter opp_moves
    let total := opp_moves.length
    match mostCommon freq with
    | none => none
    | some (mv, cnt) => (COUNTER mv).map (fun c => (c, (cnt : ℚ) / (total : ℚ)))

/-- The transition matrix built inside `markov_predict` (keyed by raw ints). -/
def buildTransitions (opp_moves : List Int) : Assoc Int (Assoc Int Nat) :=
  (opp_moves.zip opp_moves.tail).foldl (fun acc p => incr2 acc p.1 p.2) []

/-- `markov_predict(history)`. -/
def markov_predict (r : Nat) (history : List (Int × Int)) : Option (Int × ℚ) :=
  if history.length < 5 then some (choiceRPS r, 0)
  else
    let opp_moves := history.map Prod.snd
    let transitions := buildTransitions opp_moves
    match opp_moves.getLast? with
    | none => none
    | some last_opp_move =>
        match lookupA transitions last_opp_move with
        | none => some (choiceRPS r, 0)
        | some tc =>
            let total := sumCounts tc
            match mostCommon tc with
            | none => none
            | some (pm, pc) => (COUNTER pm).map (fun c => (c, (pc : ℚ) / (total : ℚ)))

/-- The opponent beat us in a round: `a` (their move) beats `b` (ours). -/
def beats (a b : Int) : Bool :=
  (a == 1 && b == 3) || (a == 2 && b == 1) || (a == 3 && b == 2)

/-- Python `range(start, stop, step)` for a positive step. -/
def pyRange3 (start stop step : Nat) : List Nat :=
  (List.range ((stop - start + step - 1) / step)).map (fun i => start + i * step)

/-- One iteration of the `for window in [2, 3, 4]` cycle-detection loop of
`sequence_predict`; the state is `(best_cycle_conf, best_cycle_move)`. -/
def cycleStep (opp_moves : List Int) (st : ℚ × Option Int) (w : Nat) :
    Option (ℚ × Option Int) :=
  if opp_moves.length < w * 2 then some st
  else
    let recent := opp_moves.drop (opp_moves.length - w)
    let prior := (opp_moves.drop (opp_moves.length - 2 * w)).take w
    if recent = prior then
      let predicted := opp_moves.getD (opp_moves.length - w) 0
      let nMatches :=
        (pyRange3 0 (opp_moves.length - w) w).countP
          (fun off => (opp_moves.drop off).take w == recent)
      let confidence := min (9/10 : ℚ) (1/2 + (nMatches : ℚ) * (1/10))
      if confidence > st.1 then (COUNTER predicted).map (fun c => (confidence, some c))
      else some st
    else some st

/-- The `(correct, total_checked)` tally of the win-stay/lose-shift scan. -/
def wslsCounts (history : List (Int × Int)) : Nat × Nat :=
  (history.zip history.tail).foldl
    (fun (acc : Nat × Nat) pq =>
      if beats pq.1.2 pq.1.1 then
        (if pq.2.2 == pq.1.2 then (acc.1 + 1, acc.2 + 1) else (acc.1, acc.2 + 1))
      else if beats pq.1.1 pq.1.2 then
        (if pq.2.2 != pq.1.2 then (acc.1 + 1, acc.2 + 1) else (acc.1, acc.2 + 1))
      else acc)
    (0, 0)

/-- The `switch_targets` Counter: moves the opponent switches to after a loss. -/
def switchTargets (history : List (Int × Int)) : Assoc Int Nat :=
  (history.zip history.tail).foldl
    (fun acc pq =>
      if beats pq.1.1 pq.1.2 && pq.2.2 != pq.1.2 then incr acc pq.2.2 else acc)
    []

/-- The win-stay/lose-shift sub-detector of `sequence_predict`, returning
`(ws_ls_conf, ws_ls_move)`. -/
def wslsPredict (history : List (Int × Int)) : ℚ × Option Int :=
  if history.length < 4 then (0, none)
  else
    let counts := wslsCounts history
    if counts.2 ≥ 3 then
      let conf : ℚ := (counts.1 : ℚ) / (counts.2 : ℚ)
      match history.getLast? with
      | none => (0, none)
      | some lastRound =>
          if beats lastRound.2 lastRound.1 && (COUNTER lastRound.2).isSome then
            (conf, COUNTER lastRound.2)
          else
            let st := (switchTargets history).filter (fun e => (COUNTER e.1).isSome)
            match mostCommon st with
            | none => (conf, none)
            | some (pm, _) => (conf, COUNTER pm)
    else (0, none)

/-- `sequence_predict(history)`. -/
def sequence_predict (r : Nat) (history : List (Int × Int)) : Option (Int × ℚ) :=
  if history.length < 4 then some (choiceRPS r, 0)
  else
    let opp_moves := history.map Prod.snd
    match [2, 3, 4].foldlM (cycleStep opp_moves) ((0 : ℚ), (none : Option Int)) with
    | none => none
    | some cyc =>
        let wsls := wslsPredict history
        if cyc.1 > wsls.1 ∧ cyc.2.isSome then
          cyc.2.map (fun mv => (mv, cyc.1))
        else
          match wsls.2 with
          | some mv => if wsls.1 > 0 then some (mv, wsls.1) else some (choiceRPS r, 0)
          | none => some (choiceRPS r, 0)

/-- `recent_win_rate(history, window)`. -/
def recent_win_rate (history : List (Int × Int)) (window : Nat) : Option ℚ :=
  if history.isEmpty then some (1/2)
  else
    let recent := history.drop (history.length - window)
    match recent.foldlM
        (fun (wins : Nat) p => (COUNTER p.2).map (fun c => if c == p.1 then wins + 1 else wins))
        0 with
    | none => none
    | some wins => some ((wins : ℚ) / (recent.length : ℚ))

/-- Cumulative history from the opponent model (`get_all_round_history`),
empty if no model was passed. -/
def modelHistory (model : Option OpponentModel) : List (Int × Int) :=
  match model with
  | some m => m.round_history
  | none => []

/-- The weighting/filter loop of `choose_move`: drop candidates on cooldown,
multiply raw confidence by `0.5 + accuracy` (0.5 when no model). Entries are
`(move, confidence, name)`. -/
def weightCands (model : Option OpponentModel) (cands : List (Int × ℚ × String)) :
    List (Int × ℚ × String) :=
  let cooldowns := match model with | some m => m.strategy_cooldowns | none => []
  cands.filterMap (fun c =>
    if lookupD cooldowns c.2.2 0 > 0 then none
    else
      let accuracy := match model with | some m => m.get_strategy_accuracy c.2.2 | none => 1/2
      some (c.1, c.2.1 * (1/2 + accuracy), c.2.2))

/-- Stable descending insertion for `list.sort(key=conf, reverse=True)`. -/
def insertDesc (x : Int × ℚ × String) : List (Int × ℚ × String) → List (Int × ℚ × String)
  | [] => [x]
  | y :: ys => if x.2.1 ≥ y.2.1 then x :: y :: ys else y :: insertDesc x ys

/-- Python's stable `sort(key=lambda x: x[1], reverse=True)`. -/
def sortDesc : List (Int × ℚ × String) → List (Int × ℚ × String)
  | [] => []
  | x :: xs => insertDesc x (sortDesc xs)

/-- Python `max(weighted, key=lambda x: x[1])`: first element attaining the
maximal confidence. -/
def maxByConf (l : List (Int × ℚ × String)) : Option (Int × ℚ × String) :=
  match l with
  | [] => none
  | x :: xs => some (xs.foldl (fun b y => if y.2.1 > b.2.1 then y else b) x)

/-- `choose_move(opponent_addr, round_history, model)`; returns
`(move, strategy_name, confidence)`. `r1 r2 r3` drive the three predictors'
random fallbacks and `r4` the combiner's own random fallback. -/
def choose_move (r1 r2 r3 r4 : Nat) (round_history : List (Int × Int))
    (model : Option OpponentModel) : Option (Int × String × ℚ) :=
  let all_history := modelHistory model ++ round_history
  match sequence_predict r1 all_history with
  | none => none
  | some sq =>
    match markov_predict r2 all_history with
    | none => none
    | some mk =>
      match frequency_predict r3 all_history with
      | none => none
      | some fq =>
        let candidates :=
          [(sq.1, sq.2, "sequence"), (mk.1, mk.2, "markov"), (fq.1, fq.2, "frequency")]
        let weighted := weightCands model candidates
        let afterAnti : Option (Int × String × ℚ) :=
          match maxByConf weighted with
          | none => some (choiceRPS r4, "random", 0)
          | some best =>
              if best.2.1 ≥ 3/10 then some (best.1, best.2.2, best.2.1)
              else some (choiceRPS r4, "random", 0)
        if round_history.length > 5 then
          match recent_win_rate round_history 5 with
          | none => none
          | some rw =>
              if rw < 7/20 then
                if weighted.length ≥ 2 then
                  let s := (sortDesc weighted).getD 1 (0, 0, "")
                  some (s.1, s.2.2, s.2.1)
                else some (choiceRPS r4, "anti-exploit", 0)
              else afterAnti
        else afterAnti

/-! ## strategy.py — poker -/

def HAND_WEAK : Int := 30
def HAND_MEDIUM : Int := 60
def HAND_STRONG : Int := 80

/-- `categorize_hand(hand_value)`. -/
def categorize_hand (hand_value : Int) : String :=
  if hand_value ≤ HAND_WEAK then "weak"
  else if hand_value ≤ HAND_MEDIUM then "medium"
  else if hand_value ≤ HAND_STRONG then "strong"
  else "premium"

/-- The `(bluff_chance, bet_multiplier)` opponent-profiling prelude of
`choose_poker_action`. -/
def bluffParams (model : Option OpponentModel) : ℚ × ℚ :=
  match model with
  | none => (3/20, 1)
  | some m =>
      match m.poker_stats with
      | some ps =>
          if ps.fold_rate > 2/5 then (7/20, 1)
          else if ps.aggression > 3/10 then (1/20, 13/10)
          else if ps.aggression < 1/10 ∧ ps.fold_rate < 1/5 then (2/25, 7/10)
          else (3/20, 1)
      | none =>
          if m.get_total_games ≥ 3 then
            if m.get_win_rate < 2/5 then (1/4, 1)
            else if m.get_win_rate > 3/5 then (1/20, 1)
            else (3/20, 1)
          else (3/20, 1)

/-- `choose_poker_action(hand_value, phase, current_bet, pot, wager, ...)`;
`rnd` is the oracle for the single `random.random()` draw on the taken path.
Returns `(action, amount_wei, strategy_name, confidence)`. -/
def choose_poker_action (hand_value : Int) (phase : String) (current_bet pot wager : Int)
    (model : Option OpponentModel) (rnd : ℚ) : String × Int × String × ℚ :=
  let _ := phase
  let category := categorize_hand hand_value
  let bp := bluffParams model
  let bluff_chance := bp.1
  let bet_multiplier := bp.2
  if current_bet = 0 then
    if category = "premium" then
      ("bet", pyInt ((wager : ℚ) * (1/2) * bet_multiplier), "value_bet", 17/20)
    else if category = "strong" then
      ("bet", pyInt ((wager : ℚ) * (3/10) * bet_multiplier), "value_bet", 7/10)
    else if category = "weak" ∧ rnd < bluff_chance then
      ("bet", pyInt ((wager : ℚ) * (2/5)), "bluff", 3/10)
    else ("check", 0, "check_behind", 1/2)
  else
    let pot_odds : ℚ :=
      if pot + current_bet > 0 then (current_bet : ℚ) / ((pot : ℚ) + (current_bet : ℚ))
      else 1/2
    if category = "premium" then
      ("raise", min (current_bet * 2) (wager * 2), "value_raise", 9/10)
    else if category = "strong" then
      if rnd < 3/10 then
        ("raise", min (pyInt ((current_bet : ℚ) * (3/2))) (wager * 2), "semi_bluff_raise", 3/5)
      else ("call", current_bet, "call_strong", 7/10)
    else if category = "medium" then
      if (hand_value : ℚ) / 100 > pot_odds then ("call", current_bet, "call_odds", 1/2)
      else ("fold", 0, "fold_bad_odds", 2/5)
    else
      if rnd < bluff_chance * (1/2) then
        ("raise", min (current_bet * 2) (wager * 2), "bluff_raise", 1/5)
      else ("fold", 0, "fold_weak", 3/5)

/-! ## psychology.py — tilt challenge -/

/-- The stake computation of `should_tilt_challenge`: half-Kelly capped at the
bankroll fraction, times the tilt multiplier, re-capped, floored at 1 wei. -/
def tiltStake (multiplier max_fraction : ℚ) (win_rate : ℚ) (balance : Int) : Int :=
  let edge := 2 * win_rate - 1
  let kelly_fraction := edge / 2
  let safe_wager := pyInt ((balance : ℚ) * min kelly_fraction max_fraction)
  let tilt_wager := pyInt ((safe_wager : ℚ) * multiplier)
  let tilt_wager := min tilt_wager (pyInt ((balance : ℚ) * max_fraction))
  max tilt_wager 1

/-- `should_tilt_challenge(opponent_addr, model, our_balance_wei)`, modeling
the `recommend` and `wager_wei` fields of the returned dict (the `reason`
string is logging-only). Config defaults: multiplier 2, bankroll cap 0.10. -/
def should_tilt_challenge (multiplier max_fraction : ℚ) (model : Option OpponentModel)
    (our_balance_wei : Int) : Bool × Int :=
  match model with
  | none => (false, 0)
  | some m =>
      if m.get_total_games < 1 then (false, 0)
      else
        let win_rate := m.get_win_rate
        match m.match_results.getLast? with
        | none => (false, 0)
        | some lastRes =>
            if ¬ lastRes.won then (false, 0)
            else if win_rate ≤ 1/2 then (false, 0)
            else
              let tw := tiltStake multiplier max_fraction win_rate our_balance_wei
              if tw < 1000000000000000 then (false, tw)
              else (true, tw)

/-! ## Basic lemmas about counters and the update loops -/

theorem sumCounts_nil {K : Type} : sumCounts ([] : Assoc K Nat) = 0 := rfl

theorem sumCounts_cons {K : Type} (a : K) (n : Nat) (t : Assoc K Nat) :
    sumCounts ((a, n) :: t) = n + sumCounts t := by
  simp [sumCounts]

theorem sumCounts_incr {K : Type} [DecidableEq K] (c : Assoc K Nat) (k : K) :
    sumCounts (incr c k) = sumCounts c + 1 := by
  induction c with
  | nil => simp [incr, sumCounts]
  | cons hd t ih =>
      obtain ⟨a, n⟩ := hd
      by_cases hak : a = k
      · simp [incr, hak, sumCounts_cons]
        omega
      · simp [incr, hak, sumCounts_cons, ih]
        omega

theorem sumCounts_addMoveCounts (mc : Assoc Int Nat) (rounds : List (Int × Int)) :
    sumCounts (addMoveCounts mc rounds) = sumCounts mc + rounds.length := by
  induction rounds generalizing mc with
  | nil => simp [addMoveCounts]
  | cons r rs ih =>
      simp only [addMoveCounts, List.foldl_cons] at *
      rw [ih (incr mc r.2), sumCounts_incr]
      simp [List.length_cons]
      omega

/-- The data-model invariant of C1. -/
def roundsOk (m : OpponentModel) : Prop :=
  sumCounts m.move_counts = m.round_history.length ∧
  ∀ p ∈ m.round_history, validRound p = true

theorem update_roundsOk (m : OpponentModel) (h : List (Int × Int)) (w : Option Bool)
    (s o : Int) (now : Nat) (hm : roundsOk m) : roundsOk (m.update h w s o now) := by
  unfold OpponentModel.update
  by_cases he : h.isEmpty
  · simp only [he, if_true]
    cases w <;> simpa [roundsOk] using hm
  · simp only [he, Bool.false_eq_true, if_false]
    by_cases hv : (h.filter validRound).isEmpty
    · simp only [hv, if_true]
      cases w <;> simpa [roundsOk] using hm
    · simp only [hv, Bool.false_eq_true, if_false]
      have hcore : sumCounts (addMoveCounts m.move_counts (h.filter validRound))
            = (m.round_history ++ h.filter validRound).length ∧
          ∀ p ∈ m.round_history ++ h.filter validRound, validRound p = true := by
        constructor
        · rw [sumCounts_addMoveCounts, hm.1, List.length_append]
        · intro p hp
          rcases List.mem_append.mp hp with hp | hp
          · exact hm.2 p hp
          · exact (List.mem_filter.mp hp).2
      cases w <;> simpa [roundsOk] using hcore

theorem foldl_updateCalls_roundsOk (calls : List UpdateCall) (m : OpponentModel)
    (hm : roundsOk m) : roundsOk (calls.foldl applyUpdateCall m) := by
  induction calls generalizing m with
  | nil => exact hm
  | cons c cs ih =>
      exact ih _ (update_roundsOk _ _ _ _ _ _ hm)

/-- C1: starting from a fresh `OpponentModel`, after any sequence of
`update()` calls (arbitrary round histories, won flags and scores), the total
of `move_counts` equals the length of `round_history`, and every entry of
`round_history` has both components in {1,2,3}. -/
theorem update_counts_invariant (addr : String) (calls : List UpdateCall) :
    sumCounts ((calls.foldl applyUpdateCall (mkOpponentModel addr)).move_counts)
      = ((calls.foldl applyUpdateCall (mkOpponentModel addr)).round_history).length ∧
    ∀ p ∈ (calls.foldl applyUpdateCall (mkOpponentModel addr)).round_history,
      validRound p = true := by
  exact foldl_updateCalls_roundsOk calls (mkOpponentModel addr) (by constructor <;> simp [mkOpponentModel, sumCounts])

/-! ## C2 — recommend_wager -/

/-- C2: `recommend_wager` stays inside `[min_wager, max_wager]` whenever
`min_wager ≤ max_wager`; it returns exactly `min_wager` whenever
`win_prob ≤ 0.5` and whenever `balance < 10 * min_wager`; and with a positive
edge and a viable balance it returns `int(balance * min(edge/2, 0.05))`
clamped to `[min_wager, max_wager]`, with `edge = 2*win_prob - 1`. -/
theorem recommend_wager_spec :
    (∀ (b : Int) (p : ℚ) (mn mx : Int), 0 ≤ p → p ≤ 1 → mn ≤ mx →
      mn ≤ recommend_wager b p mn mx ∧ recommend_wager b p mn mx ≤ mx) ∧
    (∀ (b : Int) (p : ℚ) (mn mx : Int), p ≤ 1/2 →
      recommend_wager b p mn mx = mn) ∧
    (∀ (b : Int) (p : ℚ) (mn mx : Int), b < 10 * mn →
      recommend_wager b p mn mx = mn) ∧
    (∀ (b : Int) (p : ℚ) (mn mx : Int), 0 < 2 * p - 1 → ¬ b < 10 * mn →
      recommend_wager b p mn mx
        = max mn (min (pyInt ((b : ℚ) * min ((2 * p - 1) / 2) (1/20))) mx)) := by
  refine ⟨?_, ?_, ?_, ?_⟩
  · intro b p mn mx _ _ hmnmx
    unfold recommend_wager
    by_cases he : 2 * p - 1 ≤ 0
    · simp only [he, if_true]
      exact ⟨le_refl mn, hmnmx⟩
    · simp only [he, if_false]
      by_cases hb : b < mn * 10
      · simp only [hb, if_true]
        exact ⟨le_refl mn, hmnmx⟩
      · simp only [hb, if_false]
        refine ⟨le_max_left _ _, max_le hmnmx (min_le_right _ _)⟩
  · intro b p mn mx hp
    unfold recommend_wager
    have he : 2 * p - 1 ≤ 0 := by linarith
    simp [he]
  · intro b p mn mx hb
    unfold recommend_wager
    by_cases he : 2 * p - 1 ≤ 0
    · simp [he]
    · have hb10 : b < mn * 10 := by omega
      simp [he, hb10]
  · intro b p mn mx he hb
    unfold recommend_wager
    have hne : ¬ 2 * p - 1 ≤ 0 := by linarith
    have hb10 : ¬ b < mn * 10 := by omega
    simp [hne, hb10]

/-- Witness for C2 at the spec's own scenario: balance 1e18, win_prob 0.7,
min 1e15, max 1e17 (plus a no-edge case and a low-balance case). -/
theorem recommend_wager_spec_witness :
    (10^15 ≤ recommend_wager (10^18) (7/10) (10^15) (10^17) ∧
      recommend_wager (10^18) (7/10) (10^15) (10^17) ≤ 10^17) ∧
    recommend_wager 5 (1/2) 3 9 = 3 ∧
    recommend_wager 7 (9/10) 1 100 = 1 ∧
    recommend_wager (10^18) (7/10) (10^15) (10^17)
      = max (10^15) (min (pyInt ((10^18 : ℚ) * min ((2 * (7/10) - 1) / 2) (1/20))) (10^17)) :=
  ⟨recommend_wager_spec.1 (10^18) (7/10) (10^15) (10^17) (by norm_num) (by norm_num) (by norm_num),
   recommend_wager_spec.2.1 5 (1/2) 3 9 (by norm_num),
   recommend_wager_spec.2.2.1 7 (9/10) 1 100 (by norm_num),
   recommend_wager_spec.2.2.2 (10^18) (7/10) (10^15) (10^17) (by norm_num) (by norm_num)⟩

/-! ## C6 / C9 — update() appending and filtering behavior -/

theorem addMoveCounts_nil (mc : Assoc Int Nat) : addMoveCounts mc [] = mc := rfl

theorem addTransitions_nil (tr : Assoc String (Assoc String Nat)) :
    addTransitions tr [] = tr := rfl

/-- C6: a call to `update` with `won ≠ None` appends exactly one
`match_results` entry — also when the history is empty or contains no valid
pair — and the aggregate statistics (`move_counts`, `transitions`,
`round_history`) are updated only from the pairs whose both components lie in
{1,2,3}. -/
theorem update_filters_invalid_rounds (m : OpponentModel) (hist : List (Int × Int))
    (b : Bool) (s o : Int) (now : Nat) :
    (m.update hist (some b) s o now).match_results
        = m.match_results ++ [⟨b, s, o, now⟩] ∧
    (m.update hist (some b) s o now).move_counts
        = addMoveCounts m.move_counts (hist.filter validRound) ∧
    (m.update hist (some b) s o now).transitions
        = addTransitions m.transitions ((hist.filter validRound).map Prod.snd) ∧
    (m.update hist (some b) s o now).round_history
        = m.round_history ++ hist.filter validRound := by
  unfold OpponentModel.update
  by_cases he : hist.isEmpty
  · have hnil : hist = [] := List.isEmpty_iff.mp he
    subst hnil
    simp [addMoveCounts_nil, addTransitions_nil]
  · simp only [he, Bool.false_eq_true, if_false]
    by_cases hv : (hist.filter validRound).isEmpty
    · have hfn : hist.filter validRound = [] := List.isEmpty_iff.mp hv
      simp [hv, hfn, addMoveCounts_nil, addTransitions_nil]
    · simp [hv]

/-- C9: a call to `update` with `won = None` leaves `match_results` (and with
it `get_total_games` and `get_win_rate`) unchanged, while `move_counts`,
`transitions` and `round_history` are still updated from the valid rounds of
the supplied history. -/
theorem update_none_keeps_match_results (m : OpponentModel) (hist : List (Int × Int))
    (s o : Int) (now : Nat) :
    (m.update hist none s o now).match_results = m.match_results ∧
    (m.update hist none s o now).get_total_games = m.get_total_games ∧
    (m.update hist none s o now).get_win_rate = m.get_win_rate ∧
    (m.update hist none s o now).move_counts
        = addMoveCounts m.move_counts (hist.filter validRound) ∧
    (m.update hist none s o now).transitions
        = addTransitions m.transitions ((hist.filter validRound).map Prod.snd) ∧
    (m.update hist none s o now).round_history
        = m.round_history ++ hist.filter validRound := by
  have hmr : (m.update hist none s o now).match_results = m.match_results ∧
      (m.update hist none s o now).move_counts
        = addMoveCounts m.move_counts (hist.filter validRound) ∧
      (m.update hist none s o now).transitions
        = addTransitions m.transitions ((hist.filter validRound).map Prod.snd) ∧
      (m.update hist none s o now).round_history
        = m.round_history ++ hist.filter validRound := by
    unfold OpponentModel.update
    by_cases he : hist.isEmpty
    · have hnil : hist = [] := List.isEmpty_iff.mp he
      subst hnil
      simp [addMoveCounts_nil, addTransitions_nil]
    · simp only [he, Bool.false_eq_true, if_false]
      by_cases hv : (hist.filter validRound).isEmpty
      · have hfn : hist.filter validRound = [] := List.isEmpty_iff.mp hv
        simp [hv, hfn, addMoveCounts_nil, addTransitions_nil]
      · simp [hv]
  refine ⟨hmr.1, ?_, ?_, hmr.2⟩
  · simp [OpponentModel.get_total_games, hmr.1]
  · simp [OpponentModel.get_win_rate, hmr.1]

/-! ## C8 — choose_poker_action value betting -/

/-- C8: with no outstanding bet, a premium hand (`hand_value > 80`) bets
`int(wager * 0.5 * bet_multiplier)` at confidence 0.85 and a strong hand
(`60 < hand_value ≤ 80`) bets `int(wager * 0.3 * bet_multiplier)` at
confidence 0.7; in particular `hand_value = 90`, `current_bet = 0`,
`wager = 1e17` and no opponent profile give `("bet", 5e16)` at 0.85. -/
theorem poker_premium_bets_half_wager :
    (∀ (phase : String) (pot : Int) (rnd : ℚ),
      choose_poker_action 90 phase 0 pot (10^17) none rnd
        = ("bet", 5 * 10^16, "value_bet", 17/20)) ∧
    (∀ (hv : Int) (phase : String) (pot wager : Int) (model : Option OpponentModel) (rnd : ℚ),
      80 < hv →
      choose_poker_action hv phase 0 pot wager model rnd
        = ("bet", pyInt ((wager : ℚ) * (1/2) * (bluffParams model).2), "value_bet", 17/20)) ∧
    (∀ (hv : Int) (phase : String) (pot wager : Int) (model : Option OpponentModel) (rnd : ℚ),
      60 < hv → hv ≤ 80 →
      choose_poker_action hv phase 0 pot wager model rnd
        = ("bet", pyInt ((wager : ℚ) * (3/10) * (bluffParams model).2), "value_bet", 7/10)) := by
  have hprem : ∀ (hv : Int) (phase : String) (pot wager : Int)
      (model : Option OpponentModel) (rnd : ℚ), 80 < hv →
      choose_poker_action hv phase 0 pot wager model rnd
        = ("bet", pyInt ((wager : ℚ) * (1/2) * (bluffParams model).2), "value_bet", 17/20) := by
    intro hv phase pot wager model rnd hhv
    have hcat : categorize_hand hv = "premium" := by
      unfold categorize_hand HAND_WEAK HAND_MEDIUM HAND_STRONG
      have h1 : ¬ hv ≤ 30 := by omega
      have h2 : ¬ hv ≤ 60 := by omega
      have h3 : ¬ hv ≤ 80 := by omega
      simp [h1, h2, h3]
    unfold choose_poker_action
    simp [hcat]
  refine ⟨?_, hprem, ?_⟩
  · intro phase pot rnd
    rw [hprem 90 phase pot (10^17) none rnd (by norm_num)]
    norm_num [bluffParams, pyInt]
    decide
  · intro hv phase pot wager model rnd h1 h2
    have hcat : categorize_hand hv = "strong" := by
      unfold categorize_hand HAND_WEAK HAND_MEDIUM HAND_STRONG
      have ha : ¬ hv ≤ 30 := by omega
      have hb : ¬ hv ≤ 60 := by omega
      simp [ha, hb, h2]
    unfold choose_poker_action
    simp [hcat]

/-- Witness for C8 at the concrete scenario and at a strong hand. -/
theorem poker_premium_bets_half_wager_witness :
    choose_poker_action 90 "round1" 0 0 (10^17) none 0
        = ("bet", 5 * 10^16, "value_bet", 17/20) ∧
    choose_poker_action 70 "round1" 0 0 (10^17) none 0
        = ("bet", pyInt ((10^17 : ℚ) * (3/10) * (bluffParams none).2), "value_bet", 7/10) :=
  ⟨poker_premium_bets_half_wager.1 "round1" 0 0,
   poker_premium_bets_half_wager.2.2 70 "round1" 0 (10^17) none 0 (by norm_num) (by norm_num)⟩

/-! ## C7 — should_tilt_challenge -/

/-- Unfolding equation for `should_tilt_challenge` on a present model. -/
theorem should_tilt_some_eq (mult maxF : ℚ) (m : OpponentModel) (bal : Int) :
    should_tilt_challenge mult maxF (some m) bal =
      if m.get_total_games < 1 then (false, 0)
      else
        match m.match_results.getLast? with
        | none => (false, 0)
        | some lastRes =>
            if ¬ lastRes.won then (false, 0)
            else if m.get_win_rate ≤ 1/2 then (false, 0)
            else if tiltStake mult maxF m.get_win_rate bal < 1000000000000000 then
              (false, tiltStake mult maxF m.get_win_rate bal)
            else (true, tiltStake mult maxF m.get_win_rate bal) := rfl

/-- Unfolding equation once the guard checks have located a last result. -/
theorem should_tilt_last_eq (mult maxF : ℚ) (m : OpponentModel) (bal : Int)
    (lastRes : MatchResult) (hg : ¬ m.get_total_games < 1)
    (hlast : m.match_results.getLast? = some lastRes) :
    should_tilt_challenge mult maxF (some m) bal =
      if ¬ lastRes.won then (false, 0)
      else if m.get_win_rate ≤ 1/2 then (false, 0)
      else if tiltStake mult maxF m.get_win_rate bal < 1000000000000000 then
        (false, tiltStake mult maxF m.get_win_rate bal)
      else (true, tiltStake mult maxF m.get_win_rate bal) := by
  rw [should_tilt_some_eq, if_neg hg, hlast]

/-- C7: `should_tilt_challenge` never recommends when the most recent
recorded match is a loss, regardless of overall win rate or balance; and a
`recommend = True` outcome requires the last recorded match to be a win, an
overall win rate above 0.5, and the computed tilt stake (half-Kelly capped at
the bankroll fraction, times the multiplier, re-capped) to be at least the
negligibility floor of 10^15 wei. -/
theorem tilt_requires_last_win :
    (∀ (mult maxF : ℚ) (m : OpponentModel) (bal : Int) (lastRes : MatchResult),
      m.match_results.getLast? = some lastRes → lastRes.won = false →
      (should_tilt_challenge mult maxF (some m) bal).1 = false) ∧
    (∀ (mult maxF : ℚ) (model : Option OpponentModel) (bal : Int),
      (should_tilt_challenge mult maxF model bal).1 = true →
      ∃ (m : OpponentModel) (lastRes : MatchResult),
        model = some m ∧
        m.match_results.getLast? = some lastRes ∧ lastRes.won = true ∧
        1/2 < m.get_win_rate ∧
        should_tilt_challenge mult maxF model bal
          = (true, tiltStake mult maxF m.get_win_rate bal) ∧
        1000000000000000 ≤ tiltStake mult maxF m.get_win_rate bal) := by
  constructor
  · intro mult maxF m bal lastRes hlast hwon
    by_cases hg : m.get_total_games < 1
    · rw [should_tilt_some_eq, if_pos hg]
    · rw [should_tilt_last_eq mult maxF m bal lastRes hg hlast,
         if_pos (show ¬ lastRes.won = true by simp [hwon])]
  · intro mult maxF model bal hrec
    match model with
    | none => exact absurd hrec (by simp [should_tilt_challenge])
    | some m =>
        by_cases hg : m.get_total_games < 1
        · rw [should_tilt_some_eq, if_pos hg] at hrec
          exact absurd hrec (by simp)
        match hlast : m.match_results.getLast? with
        | none =>
            rw [should_tilt_some_eq, if_neg hg, hlast] at hrec
            exact absurd hrec (by simp)
        | some lastRes =>
            rw [should_tilt_last_eq mult maxF m bal lastRes hg hlast] at hrec
            by_cases hw : lastRes.won
            · rw [if_neg (by simp [hw])] at hrec
              by_cases hr : m.get_win_rate ≤ 1/2
              · rw [if_pos hr] at hrec
                exact absurd hrec (by simp)
              rw [if_neg hr] at hrec
              by_cases hs : tiltStake mult maxF m.get_win_rate bal < 1000000000000000
              · rw [if_pos hs] at hrec
                exact absurd hrec (by simp)
              rw [if_neg hs] at hrec
              exact ⟨m, lastRes, rfl, hlast, hw, lt_of_not_le hr,
                by rw [should_tilt_last_eq mult maxF m bal lastRes hg hlast,
                       if_neg (by simp [hw]), if_neg hr, if_neg hs],
                le_of_not_lt hs⟩
            · rw [if_pos (by simpa using hw)] at hrec
              exact absurd hrec (by simp)

/-- Witness for C7: a model whose last result is a loss is never recommended,
and a concrete winning model at balance 1e18 with the default config
(multiplier 2, cap 0.10) yields a recommendation satisfying all conditions. -/
theorem tilt_requires_last_win_witness :
    (should_tilt_challenge 2 (1/10)
      (some { mkOpponentModel "a" with
                match_results := [⟨true, 0, 0, 0⟩, ⟨false, 0, 0, 0⟩] }) (10^18)).1 = false ∧
    ∃ (m : OpponentModel) (lastRes : MatchResult),
      (some { mkOpponentModel "b" with
                match_results := [⟨false, 0, 0, 0⟩, ⟨true, 0, 0, 0⟩, ⟨true, 0, 0, 0⟩] }
          : Option OpponentModel) = some m ∧
      m.match_results.getLast? = some lastRes ∧ lastRes.won = true ∧
      1/2 < m.get_win_rate ∧
      should_tilt_challenge 2 (1/10)
        (some { mkOpponentModel "b" with
                  match_results := [⟨false, 0, 0, 0⟩, ⟨true, 0, 0, 0⟩, ⟨true, 0, 0, 0⟩] })
        (10^18) = (true, tiltStake 2 (1/10) m.get_win_rate (10^18)) ∧
      1000000000000000 ≤ tiltStake 2 (1/10) m.get_win_rate (10^18) :=
  ⟨tilt_requires_last_win.1 2 (1/10) _ (10^18) ⟨false, 0, 0, 0⟩ (by rfl) rfl,
   tilt_requires_last_win.2 2 (1/10) _ (10^18) (by with_unfolding_all rfl)⟩

/-! ## C4 — choose_move confidence weighting and threshold -/

theorem maxByConf_eq_none (l : List (Int × ℚ × String)) : maxByConf l = none ↔ l = [] := by
  cases l <;> simp [maxByConf]

theorem foldl_pickMax_mem (xs : List (Int × ℚ × String)) (x : Int × ℚ × String) :
    xs.foldl (fun b y => if y.2.1 > b.2.1 then y else b) x = x ∨
    xs.foldl (fun b y => if y.2.1 > b.2.1 then y else b) x ∈ xs := by
  induction xs generalizing x with
  | nil => left; rfl
  | cons y ys ih =>
      rw [List.foldl_cons]
      rcases ih (if y.2.1 > x.2.1 then y else x) with h | h
      · rw [h]
        by_cases hc : y.2.1 > x.2.1
        · right
          rw [if_pos hc]
          exact List.mem_cons_self _ _
        · left
          rw [if_neg hc]
      · right
        exact List.mem_cons_of_mem _ h

theorem foldl_pickMax_le (xs : List (Int × ℚ × String)) (x : Int × ℚ × String) :
    x.2.1 ≤ (xs.foldl (fun b y => if y.2.1 > b.2.1 then y else b) x).2.1 ∧
    ∀ z ∈ xs, z.2.1 ≤ (xs.foldl (fun b y => if y.2.1 > b.2.1 then y else b) x).2.1 := by
  induction xs generalizing x with
  | nil => exact ⟨le_refl _, by simp⟩
  | cons y ys ih =>
      rw [List.foldl_cons]
      have hx : x.2.1 ≤ (if y.2.1 > x.2.1 then y else x).2.1 := by
        by_cases hc : y.2.1 > x.2.1
        · rw [if_pos hc]; exact le_of_lt hc
        · rw [if_neg hc]
      have hy : y.2.1 ≤ (if y.2.1 > x.2.1 then y else x).2.1 := by
        by_cases hc : y.2.1 > x.2.1
        · rw [if_pos hc]
        · rw [if_neg hc]; exact le_of_not_lt hc
      obtain ⟨ha, hb⟩ := ih (if y.2.1 > x.2.1 then y else x)
      refine ⟨le_trans hx ha, ?_⟩
      intro z hz
      rcases List.mem_cons.mp hz with rfl | hz
      · exact le_trans hy ha
      · exact hb z hz

theorem maxByConf_mem {l : List (Int × ℚ × String)} {b : Int × ℚ × String}
    (h : maxByConf l = some b) : b ∈ l := by
  match l with
  | [] => simp [maxByConf] at h
  | x :: xs =>
      simp only [maxByConf, Option.some.injEq] at h
      rcases foldl_pickMax_mem xs x with hm | hm
      · rw [← h, hm]; exact List.mem_cons_self _ _
      · rw [← h]; exact List.mem_cons_of_mem _ hm

theorem maxByConf_le {l : List (Int × ℚ × String)} {b : Int × ℚ × String}
    (h : maxByConf l = some b) : ∀ x ∈ l, x.2.1 ≤ b.2.1 := by
  match l with
  | [] => simp [maxByConf] at h
  | x :: xs =>
      simp only [maxByConf, Option.some.injEq] at h
      intro z hz
      obtain ⟨ha, hb⟩ := foldl_pickMax_le xs x
      rcases List.mem_cons.mp hz with rfl | hz
      · rw [← h]; exact ha
      · rw [← h]; exact hb z hz

/-- C4 counterexample: with no model passed (so no per-opponent accuracy
weighting is available and every accuracy defaults to 0.5), the best
weighted confidence 1/3 lies below the claimed 0.4 acceptance threshold, yet
`choose_move` still returns the frequency candidate instead of falling back
to a random move: the only acceptance threshold in the code is 0.3. -/
theorem choose_move_no_04_threshold :
    choose_move 0 0 0 0 [(1, 1), (1, 2), (1, 3)] none = some (2, "frequency", 1/3) ∧
    ((1/3 : ℚ) < 2/5) :=
  ⟨by with_unfolding_all rfl, by norm_num⟩

/-- C4 (amended): outside the anti-exploitation branch, each non-cooldown
candidate's raw confidence is re-weighted as `raw * (0.5 + accuracy)` (0.5
when absent), and the candidate with the highest weighted confidence is
returned exactly when that weighted confidence is ≥ 0.3 — the same 0.3
threshold whether or not a model supplies accuracy weighting; otherwise a
uniformly random move labeled "random" with confidence 0 is returned. -/
theorem choose_move_threshold
    (r1 r2 r3 r4 : Nat) (round_history : List (Int × Int)) (model : Option OpponentModel)
    (m1 m2 m3 : Int) (c1 c2 c3 : ℚ)
    (h1 : sequence_predict r1 (modelHistory model ++ round_history) = some (m1, c1))
    (h2 : markov_predict r2 (modelHistory model ++ round_history) = some (m2, c2))
    (h3 : frequency_predict r3 (modelHistory model ++ round_history) = some (m3, c3))
    (hanti : round_history.length ≤ 5 ∨
      ∃ q, recent_win_rate round_history 5 = some q ∧ 7/20 ≤ q) :
    ∃ res, choose_move r1 r2 r3 r4 round_history model = some res ∧
      ((res.2.1 = "random" ∧ res.2.2 = 0 ∧ res.1 = choiceRPS r4 ∧
        ∀ x ∈ weightCands model
            [(m1, c1, "sequence"), (m2, c2, "markov"), (m3, c3, "frequency")],
          x.2.1 < 3/10) ∨
       ((res.1, res.2.2, res.2.1) ∈ weightCands model
            [(m1, c1, "sequence"), (m2, c2, "markov"), (m3, c3, "frequency")] ∧
        3/10 ≤ res.2.2 ∧
        ∀ x ∈ weightCands model
            [(m1, c1, "sequence"), (m2, c2, "markov"), (m3, c3, "frequency")],
          x.2.1 ≤ res.2.2)) := by
  have hafter :
      ∀ goalAfter : Option (Int × String × ℚ),
        goalAfter = (match maxByConf (weightCands model
            [(m1, c1, "sequence"), (m2, c2, "markov"), (m3, c3, "frequency")]) with
          | none => some (choiceRPS r4, "random", 0)
          | some best =>
              if best.2.1 ≥ 3/10 then some (best.1, best.2.2, best.2.1)
              else some (choiceRPS r4, "random", 0)) →
        ∃ res, goalAfter = some res ∧
          ((res.2.1 = "random" ∧ res.2.2 = 0 ∧ res.1 = choiceRPS r4 ∧
            ∀ x ∈ weightCands model
                [(m1, c1, "sequence"), (m2, c2, "markov"), (m3, c3, "frequency")],
              x.2.1 < 3/10) ∨
           ((res.1, res.2.2, res.2.1) ∈ weightCands model
                [(m1, c1, "sequence"), (m2, c2, "markov"), (m3, c3, "frequency")] ∧
            3/10 ≤ res.2.2 ∧
            ∀ x ∈ weightCands model
                [(m1, c1, "sequence"), (m2, c2, "markov"), (m3, c3, "frequency")],
              x.2.1 ≤ res.2.2)) := by
    intro goalAfter hga
    match hmax : maxByConf (weightCands model
        [(m1, c1, "sequence"), (m2, c2, "markov"), (m3, c3, "frequency")]) with
    | none =>
        rw [hmax] at hga
        have hga2 : goalAfter = some (choiceRPS r4, "random", 0) := hga
        refine ⟨(choiceRPS r4, "random", 0), hga2, Or.inl ⟨rfl, rfl, rfl, ?_⟩⟩
        intro x hx
        rw [(maxByConf_eq_none _).mp hmax] at hx
        simp at hx
    | some best =>
        rw [hmax] at hga
        have hga2 : goalAfter =
            if best.2.1 ≥ 3/10 then some (best.1, best.2.2, best.2.1)
            else some (choiceRPS r4, "random", 0) := hga
        by_cases hth : best.2.1 ≥ 3/10
        · rw [if_pos hth] at hga2
          refine ⟨(best.1, best.2.2, best.2.1), hga2, Or.inr ⟨?_, hth, ?_⟩⟩
          · simpa using maxByConf_mem hmax
          · intro x hx
            simpa using maxByConf_le hmax x hx
        · rw [if_neg hth] at hga2
          refine ⟨(choiceRPS r4, "random", 0), hga2, Or.inl ⟨rfl, rfl, rfl, ?_⟩⟩
          intro x hx
          exact lt_of_le_of_lt (maxByConf_le hmax x hx) (lt_of_not_le hth)
  unfold choose_move
  simp only [h1, h2, h3]
  by_cases hlen : round_history.length > 5
  · rcases hanti with hle | ⟨q, hq, hge⟩
    · omega
    · rw [if_pos hlen]
      simp only [hq]
      rw [if_neg (not_lt.mpr hge)]
      exact hafter _ rfl
  · rw [if_neg hlen]
    exact hafter _ rfl

/-- Witness for C4 (amended): three rounds of history and no model. -/
theorem choose_move_threshold_witness :
    ∃ res, choose_move 1 1 1 1 [(1, 1), (1, 2), (1, 3)] none = some res ∧
      ((res.2.1 = "random" ∧ res.2.2 = 0 ∧ res.1 = choiceRPS 1 ∧
        ∀ x ∈ weightCands none
            [(2, 0, "sequence"), (2, 0, "markov"), (2, 1/3, "frequency")],
          x.2.1 < 3/10) ∨
       ((res.1, res.2.2, res.2.1) ∈ weightCands none
            [(2, 0, "sequence"), (2, 0, "markov"), (2, 1/3, "frequency")] ∧
        3/10 ≤ res.2.2 ∧
        ∀ x ∈ weightCands none
            [(2, 0, "sequence"), (2, 0, "markov"), (2, 1/3, "frequency")],
          x.2.1 ≤ res.2.2)) :=
  choose_move_threshold 1 1 1 1 [(1, 1), (1, 2), (1, 3)] none 2 2 2 0 0 (1/3)
    (by with_unfolding_all rfl) (by with_unfolding_all rfl) (by with_unfolding_all rfl)
    (Or.inl (by norm_num))

/-! ## C5 — estimate_win_prob -/

theorem win_rate_of_no_games (m : OpponentModel) (h : m.get_total_games = 0) :
    m.get_win_rate = 1/2 := by
  unfold OpponentModel.get_win_rate
  have hnil : m.match_results = [] := List.length_eq_zero.mp h
  simp [hnil]

theorem estimate_win_prob_formula (m : OpponentModel) (h : 0 < m.get_total_games) :
    estimate_win_prob m
      = ((m.get_total_games : ℚ) / ((m.get_total_games : ℚ) + 5)) * m.get_win_rate
        + (5 / ((m.get_total_games : ℚ) + 5)) * (1/2) := by
  unfold estimate_win_prob
  rw [if_neg (by omega)]
  have hg : ((m.get_total_games : ℚ) + 5) ≠ 0 := by positivity
  field_simp

theorem estimate_win_prob_sub (m : OpponentModel) (h : 0 < m.get_total_games) :
    estimate_win_prob m - m.get_win_rate
      = (5 / ((m.get_total_games : ℚ) + 5)) * (1/2 - m.get_win_rate) := by
  rw [estimate_win_prob_formula m h]
  have hg : ((m.get_total_games : ℚ) + 5) ≠ 0 := by positivity
  field_simp
  ring

/-- C5: `estimate_win_prob` is 0.5 at zero games; for positive game count `g`
it equals `(g/(g+5)) * observed_rate + (5/(g+5)) * 0.5`; it is monotone
non-decreasing in the observed win rate at fixed game count; and at fixed
observed rate the gap to the observed rate is non-increasing in the game
count. -/
theorem estimate_win_prob_shrinkage :
    (∀ m : OpponentModel, m.get_total_games = 0 → estimate_win_prob m = 1/2) ∧
    (∀ m : OpponentModel, 0 < m.get_total_games →
      estimate_win_prob m
        = ((m.get_total_games : ℚ) / ((m.get_total_games : ℚ) + 5)) * m.get_win_rate
          + (5 / ((m.get_total_games : ℚ) + 5)) * (1/2)) ∧
    (∀ m1 m2 : OpponentModel, m1.get_total_games = m2.get_total_games →
      0 < m1.get_total_games → m1.get_win_rate ≤ m2.get_win_rate →
      estimate_win_prob m1 ≤ estimate_win_prob m2) ∧
    (∀ m1 m2 : OpponentModel, m1.get_win_rate = m2.get_win_rate →
      m1.get_total_games ≤ m2.get_total_games →
      |estimate_win_prob m2 - m2.get_win_rate| ≤ |estimate_win_prob m1 - m1.get_win_rate|) := by
  refine ⟨?_, estimate_win_prob_formula, ?_, ?_⟩
  · intro m h
    unfold estimate_win_prob
    rw [if_pos h]
  · intro m1 m2 hg h1 hr
    have h2 : 0 < m2.get_total_games := hg ▸ h1
    rw [estimate_win_prob_formula m1 h1, estimate_win_prob_formula m2 h2, hg]
    have hw : (0 : ℚ) ≤ (m2.get_total_games : ℚ) / ((m2.get_total_games : ℚ) + 5) := by
      positivity
    exact add_le_add_right (mul_le_mul_of_nonneg_left hr hw) _
  · intro m1 m2 hr hle
    by_cases h1 : m1.get_total_games = 0
    · have hr1 : m1.get_win_rate = 1/2 := win_rate_of_no_games m1 h1
      have he1 : estimate_win_prob m1 = 1/2 := by
        unfold estimate_win_prob
        rw [if_pos h1]
      have hr2 : m2.get_win_rate = 1/2 := hr ▸ hr1
      by_cases h2 : m2.get_total_games = 0
      · have he2 : estimate_win_prob m2 = 1/2 := by
          unfold estimate_win_prob
          rw [if_pos h2]
        rw [he1, he2, hr1, hr2]
      · have h2p : 0 < m2.get_total_games := Nat.pos_of_ne_zero h2
        rw [estimate_win_prob_sub m2 h2p, he1, hr1, hr2]
        simp
    · have h1p : 0 < m1.get_total_games := Nat.pos_of_ne_zero h1
      have h2p : 0 < m2.get_total_games := lt_of_lt_of_le h1p hle
      rw [estimate_win_prob_sub m1 h1p, estimate_win_prob_sub m2 h2p, hr]
      rw [abs_mul, abs_mul]
      have hpos1 : (0 : ℚ) < 5 / ((m1.get_total_games : ℚ) + 5) := by positivity
      have hpos2 : (0 : ℚ) < 5 / ((m2.get_total_games : ℚ) + 5) := by positivity
      rw [abs_of_pos hpos1, abs_of_pos hpos2]
      refine mul_le_mul_of_nonneg_right ?_ (abs_nonneg _)
      rw [div_le_div_iff₀ (by positivity) (by positivity)]
      have hc : (m1.get_total_games : ℚ) ≤ (m2.get_total_games : ℚ) := Nat.cast_le.mpr hle
      nlinarith

/-- Witness for C5 at concrete models: the empty model, a one-win model, a
one-loss model and a two-win model. -/
theorem estimate_win_prob_shrinkage_witness :
    estimate_win_prob (mkOpponentModel "a") = 1/2 ∧
    estimate_win_prob { mkOpponentModel "a" with match_results := [⟨true, 0, 0, 0⟩] }
      = ((({ mkOpponentModel "a" with
              match_results := [⟨true, 0, 0, 0⟩] } : OpponentModel).get_total_games : ℚ)
          / ((({ mkOpponentModel "a" with
              match_results := [⟨true, 0, 0, 0⟩] } : OpponentModel).get_total_games : ℚ) + 5))
          * ({ mkOpponentModel "a" with
                match_results := [⟨true, 0, 0, 0⟩] } : OpponentModel).get_win_rate
        + (5 / ((({ mkOpponentModel "a" with
              match_results := [⟨true, 0, 0, 0⟩] } : OpponentModel).get_total_games : ℚ) + 5))
          * (1/2) ∧
    estimate_win_prob { mkOpponentModel "a" with match_results := [⟨false, 0, 0, 0⟩] }
      ≤ estimate_win_prob { mkOpponentModel "a" with match_results := [⟨true, 0, 0, 0⟩] } ∧
    |estimate_win_prob
        { mkOpponentModel "a" with match_results := [⟨true, 0, 0, 0⟩, ⟨true, 0, 0, 1⟩] }
      - ({ mkOpponentModel "a" with
            match_results := [⟨true, 0, 0, 0⟩, ⟨true, 0, 0, 1⟩] } : OpponentModel).get_win_rate|
      ≤ |estimate_win_prob { mkOpponentModel "a" with match_results := [⟨true, 0, 0, 0⟩] }
      - ({ mkOpponentModel "a" with
            match_results := [⟨true, 0, 0, 0⟩] } : OpponentModel).get_win_rate| :=
  ⟨estimate_win_prob_shrinkage.1 _ rfl,
   estimate_win_prob_shrinkage.2.1 _ (by with_unfolding_all decide),
   estimate_win_prob_shrinkage.2.2.1 _ _ (by with_unfolding_all rfl)
     (by with_unfolding_all decide) (by with_unfolding_all decide),
   estimate_win_prob_shrinkage.2.2.2 _ _ (by with_unfolding_all rfl)
     (by with_unfolding_all decide)⟩

/-! ## C3 — serialization round-trip -/

theorem toNat_ofNat_of_valid {n : Nat} (h : n.isValidChar) : (Char.ofNat n).toNat = n := by
  unfold Char.ofNat
  rw [dif_pos h]
  rfl

theorem pyLowerChar_toNat_not_upper (c : Char) :
    ¬ (65 ≤ (pyLowerChar c).toNat ∧ (pyLowerChar c).toNat ≤ 90) := by
  unfold pyLowerChar
  by_cases h : 65 ≤ c.toNat ∧ c.toNat ≤ 90
  · rw [if_pos h]
    have hv : (c.toNat + 32).isValidChar := Or.inl (by omega)
    rw [toNat_ofNat_of_valid hv]
    omega
  · rw [if_neg h]
    exact h

theorem pyLowerChar_idem (c : Char) : pyLowerChar (pyLowerChar c) = pyLowerChar c := by
  have h := pyLowerChar_toNat_not_upper c
  conv_lhs => rw [pyLowerChar]
  rw [if_neg h]

theorem pyLower_idem (s : String) : pyLower (pyLower s) = pyLower s := by
  show String.mk (((String.mk (s.data.map pyLowerChar)).data).map pyLowerChar)
    = String.mk (s.data.map pyLowerChar)
  rw [show (String.mk (s.data.map pyLowerChar)).data = s.data.map pyLowerChar from rfl,
     List.map_map]
  exact congrArg String.mk
    (List.map_congr_left (fun c _ => by simp only [Function.comp_apply, pyLowerChar_idem]))

theorem map_pair_id {α β : Type} (l : List (α × β)) : l.map (fun kv => (kv.1, kv.2)) = l := by
  simp

theorem applyOp_addr (m : OpponentModel) (op : ModelOp) :
    (applyOp m op).opponent_addr = m.opponent_addr := by
  cases op with
  | upd h w s o now =>
      show (m.update h w s o now).opponent_addr = m.opponent_addr
      unfold OpponentModel.update
      dsimp only
      repeat' split
      all_goals rfl
  | rps n r => rfl
  | poker oh oeb f w wg now => rfl
  | auction ob wg w now => rfl

theorem foldl_applyOp_addr (ops : List ModelOp) (m : OpponentModel) :
    (ops.foldl applyOp m).opponent_addr = m.opponent_addr := by
  induction ops generalizing m with
  | nil => rfl
  | cons op rest ih => rw [List.foldl_cons, ih, applyOp_addr]

theorem from_dict_to_dict (m : OpponentModel) (h : pyLower m.opponent_addr = m.opponent_addr) :
    OpponentModel.from_dict m.to_dict = m := by
  cases m with
  | mk addr mc tr mr rh lu sp ps au sc =>
      unfold OpponentModel.from_dict OpponentModel.to_dict mkOpponentModel
      simp only at h
      simp [map_pair_id, h]

/-- C3: for any model built from a fresh `OpponentModel` purely through the
public update methods (`update`, `record_rps_strategy`, `update_poker_stats`,
`update_auction_stats`), `from_dict (to_dict m)` reproduces `m` exactly in
every field. -/
theorem to_dict_from_dict_roundtrip (addr : String) (ops : List ModelOp) :
    OpponentModel.from_dict (OpponentModel.to_dict (ops.foldl applyOp (mkOpponentModel addr)))
      = ops.foldl applyOp (mkOpponentModel addr) := by
  apply from_dict_to_dict
  rw [foldl_applyOp_addr]
  exact pyLower_idem addr

/-! ## C10 — counter and transition-table lemmas -/

theorem mem_incr {K : Type} [DecidableEq K] {c : Assoc K Nat} {k : K} {e : K × Nat}
    (h : e ∈ incr c k) : e ∈ c ∨ (e.1 = k ∧ 1 ≤ e.2) := by
  induction c with
  | nil =>
      simp [incr] at h
      subst h
      right
      exact ⟨rfl, le_refl 1⟩
  | cons hd t ih =>
      obtain ⟨a, n⟩ := hd
      by_cases hak : a = k
      · rw [incr, if_pos hak] at h
        rcases List.mem_cons.mp h with rfl | hmem
        · right
          exact ⟨hak, by omega⟩
        · left
          exact List.mem_cons_of_mem _ hmem
      · rw [incr, if_neg hak] at h
        rcases List.mem_cons.mp h with rfl | hmem
        · left
          exact List.mem_cons_self _ _
        · rcases ih hmem with hm | hm
          · left
            exact List.mem_cons_of_mem _ hm
          · right
            exact hm

theorem incr_ne_nil {K : Type} [DecidableEq K] (c : Assoc K Nat) (k : K) : incr c k ≠ [] := by
  cases c with
  | nil => simp [incr]
  | cons hd t =>
      obtain ⟨a, n⟩ := hd
      rw [incr]
      split <;> simp

theorem entry_le_sumCounts {K : Type} {c : Assoc K Nat} {e : K × Nat} (h : e ∈ c) :
    e.2 ≤ sumCounts c := by
  induction c with
  | nil => simp at h
  | cons hd t ih =>
      rcases List.mem_cons.mp h with rfl | hmem
      · rw [show sumCounts (e :: t) = e.2 + sumCounts t from by simp [sumCounts]]
        omega
      · obtain ⟨a, n⟩ := hd
        rw [sumCounts_cons]
        have := ih hmem
        omega

theorem mostCommon_mem {K : Type} {c : Assoc K Nat} {e : K × Nat}
    (h : mostCommon c = some e) : e ∈ c := by
  induction c with
  | nil => simp [mostCommon] at h
  | cons hd t ih =>
      obtain ⟨a, n⟩ := hd
      rw [mostCommon] at h
      match hmc : mostCommon t with
      | none =>
          rw [hmc] at h
          simp at h
          rw [← h]
          exact List.mem_cons_self _ _
      | some ⟨k2, n2⟩ =>
          rw [hmc] at h
          have h2 : (if n2 > n then some (k2, n2) else some (a, n)) = some e := h
          by_cases hgt : n2 > n
          · rw [if_pos hgt] at h2
            simp only [Option.some.injEq] at h2
            subst h2
            exact List.mem_cons_of_mem _ (ih hmc)
          · rw [if_neg hgt] at h2
            simp only [Option.some.injEq] at h2
            subst h2
            exact List.mem_cons_self _ _

theorem mostCommon_eq_none {K : Type} (c : Assoc K Nat) : mostCommon c = none ↔ c = [] := by
  cases c with
  | nil => simp [mostCommon]
  | cons hd t =>
      obtain ⟨a, n⟩ := hd
      rw [mostCommon]
      constructor
      · intro h
        match hmc : mostCommon t with
        | none => rw [hmc] at h; simp at h
        | some ⟨k2, n2⟩ =>
            rw [hmc] at h
            have h2 : (if n2 > n then some (k2, n2) else some (a, n)) = none := h
            by_cases hgt : n2 > n
            · rw [if_pos hgt] at h2; simp at h2
            · rw [if_neg hgt] at h2; simp at h2
      · intro h
        simp at h

theorem mem_foldl_incr {K : Type} [DecidableEq K] (l : List K) (c : Assoc K Nat)
    (e : K × Nat) (h : e ∈ l.foldl incr c) : e ∈ c ∨ e.1 ∈ l := by
  induction l generalizing c with
  | nil => exact Or.inl h
  | cons x xs ih =>
      rw [List.foldl_cons] at h
      rcases ih (incr c x) h with hm | hm
      · rcases mem_incr hm with hm2 | hm2
        · exact Or.inl hm2
        · right
          rw [hm2.1]
          exact List.mem_cons_self _ _
      · right
        exact List.mem_cons_of_mem _ hm

theorem counts_pos_foldl_incr {K : Type} [DecidableEq K] (l : List K) (c : Assoc K Nat)
    (hc : ∀ e ∈ c, 1 ≤ e.2) (e : K × Nat) (h : e ∈ l.foldl incr c) : 1 ≤ e.2 := by
  induction l generalizing c with
  | nil => exact hc e h
  | cons x xs ih =>
      rw [List.foldl_cons] at h
      refine ih (incr c x) ?_ h
      intro e2 he2
      rcases mem_incr he2 with hm | hm
      · exact hc e2 hm
      · exact hm.2

theorem mem_mkCounter_key {K : Type} [DecidableEq K] {l : List K} {e : K × Nat}
    (h : e ∈ mkCounter l) : e.1 ∈ l := by
  rcases mem_foldl_incr l [] e h with hm | hm
  · simp at hm
  · exact hm

theorem mkCounter_counts_pos {K : Type} [DecidableEq K] {l : List K} {e : K × Nat}
    (h : e ∈ mkCounter l) : 1 ≤ e.2 :=
  counts_pos_foldl_incr l [] (by simp) e h

theorem sumCounts_foldl_incr {K : Type} [DecidableEq K] (l : List K) (c : Assoc K Nat) :
    sumCounts (l.foldl incr c) = sumCounts c + l.length := by
  induction l generalizing c with
  | nil => simp
  | cons x xs ih =>
      rw [List.foldl_cons, ih, sumCounts_incr]
      simp
      omega

theorem sumCounts_mkCounter {K : Type} [DecidableEq K] (l : List K) :
    sumCounts (mkCounter l) = l.length := by
  rw [mkCounter, sumCounts_foldl_incr]
  simp [sumCounts]

theorem mkCounter_ne_nil {K : Type} [DecidableEq K] {l : List K} (h : l ≠ []) :
    mkCounter l ≠ [] := by
  match l with
  | [] => exact absurd rfl h
  | x :: xs =>
      rw [mkCounter, List.foldl_cons]
      have : ∀ (ys : List K) (c : Assoc K Nat), c ≠ [] → ys.foldl incr c ≠ [] := by
        intro ys
        induction ys with
        | nil => intro c hc; exact hc
        | cons y yt ih =>
            intro c hc
            rw [List.foldl_cons]
            exact ih _ (incr_ne_nil c y)
      exact this xs (incr [] x) (incr_ne_nil [] x)

theorem lookupA_mem {K V : Type} [DecidableEq K] {l : Assoc K V} {k : K} {v : V}
    (h : lookupA l k = some v) : (k, v) ∈ l := by
  induction l with
  | nil => simp [lookupA] at h
  | cons hd t ih =>
      obtain ⟨a, w⟩ := hd
      rw [lookupA] at h
      by_cases hak : a = k
      · rw [if_pos hak] at h
        simp at h
        rw [← hak, ← h]
        exact List.mem_cons_self _ _
      · rw [if_neg hak] at h
        exact List.mem_cons_of_mem _ (ih h)

theorem COUNTER_out {k c : Int} (h : COUNTER k = some c) : c = 1 ∨ c = 2 ∨ c = 3 := by
  unfold COUNTER at h
  by_cases h1 : k = 1
  · rw [if_pos h1] at h; simp at h; omega
  · rw [if_neg h1] at h
    by_cases h2 : k = 2
    · rw [if_pos h2] at h; simp at h; omega
    · rw [if_neg h2] at h
      by_cases h3 : k = 3
      · rw [if_pos h3] at h; simp at h; omega
      · rw [if_neg h3] at h; simp at h

theorem COUNTER_valid {k : Int} (h : isValidMove k = true) : ∃ c, COUNTER k = some c := by
  unfold isValidMove at h
  simp only [Bool.or_eq_true, beq_iff_eq] at h
  unfold COUNTER
  rcases h with (h | h) | h <;> subst h <;> simp

theorem choiceRPS_mem (i : Nat) : choiceRPS i = 1 ∨ choiceRPS i = 2 ∨ choiceRPS i = 3 := by
  unfold choiceRPS
  have h3 : i % 3 = 0 ∨ i % 3 = 1 ∨ i % 3 = 2 := by omega
  rcases h3 with h | h | h <;> rw [h] <;> simp

theorem ratio_bounds (a b : Nat) (hab : a ≤ b) (hb : 0 < b) :
    0 ≤ (a : ℚ) / (b : ℚ) ∧ (a : ℚ) / (b : ℚ) ≤ 1 := by
  constructor
  · positivity
  · rw [div_le_one (by exact_mod_cast hb)]
    exact_mod_cast hab

theorem snd_valid_of_history {hist : List (Int × Int)}
    (hv : ∀ p ∈ hist, validRound p = true) {mv : Int} (h : mv ∈ hist.map Prod.snd) :
    isValidMove mv = true := by
  obtain ⟨p, hp, hsnd⟩ := List.mem_map.mp h
  have := hv p hp
  unfold validRound at this
  rw [← hsnd]
  exact ((Bool.and_eq_true _ _).mp this).2

theorem frequency_total (r : Nat) (hist : List (Int × Int))
    (hv : ∀ p ∈ hist, validRound p = true) :
    ∃ mv c, frequency_predict r hist = some (mv, c) ∧
      (mv = 1 ∨ mv = 2 ∨ mv = 3) ∧ 0 ≤ c ∧ c ≤ 1 := by
  unfold frequency_predict
  by_cases he : hist.isEmpty
  · rw [if_pos he]
    exact ⟨choiceRPS r, 0, rfl, choiceRPS_mem r, le_refl 0, by norm_num⟩
  · rw [if_neg he]
    have hne : hist.map Prod.snd ≠ [] := by
      intro hcon
      rw [List.map_eq_nil_iff] at hcon
      rw [hcon] at he
      simp at he
    match hmc : mostCommon (mkCounter (hist.map Prod.snd)) with
    | none =>
        exact absurd ((mostCommon_eq_none _).mp hmc) (mkCounter_ne_nil hne)
    | some ⟨mv0, cnt⟩ =>
        have hvalid : isValidMove mv0 = true :=
          snd_valid_of_history hv (mem_mkCounter_key (mostCommon_mem hmc))
        obtain ⟨cc, hcc⟩ := COUNTER_valid hvalid
        have hcnt_le : cnt ≤ (hist.map Prod.snd).length := by
          have h1 := entry_le_sumCounts (mostCommon_mem hmc)
          rw [sumCounts_mkCounter] at h1
          exact h1
        have hlen : 0 < (hist.map Prod.snd).length := List.length_pos.mpr hne
        obtain ⟨hb1, hb2⟩ := ratio_bounds cnt _ hcnt_le hlen
        refine ⟨cc, (cnt : ℚ) / (((hist.map Prod.snd).length : Nat) : ℚ), ?_,
          COUNTER_out hcc, hb1, hb2⟩
        simp only [hmc, hcc, Option.map_some']

theorem incr2_inner {K : Type} [DecidableEq K] (tr : Assoc K (Assoc K Nat)) (a b : K)
    (P : K → Prop) (htr : ∀ e ∈ tr, e.2 ≠ [] ∧ ∀ x ∈ e.2, P x.1 ∧ 1 ≤ x.2) (hb : P b) :
    ∀ e ∈ incr2 tr a b, e.2 ≠ [] ∧ ∀ x ∈ e.2, P x.1 ∧ 1 ≤ x.2 := by
  induction tr with
  | nil =>
      intro e he
      simp only [incr2, List.mem_singleton] at he
      subst he
      refine ⟨by simp, ?_⟩
      intro x hx
      simp only [List.mem_singleton] at hx
      subst hx
      exact ⟨hb, le_refl 1⟩
  | cons hd t ih =>
      obtain ⟨f0, c0⟩ := hd
      intro e he
      rw [incr2] at he
      by_cases haf : f0 = a
      · rw [if_pos haf] at he
        rcases List.mem_cons.mp he with rfl | hm
        · refine ⟨incr_ne_nil _ _, ?_⟩
          intro x hx
          rcases mem_incr hx with hx2 | hx2
          · exact (htr (f0, c0) (List.mem_cons_self _ _)).2 x hx2
          · exact ⟨by rw [hx2.1]; exact hb, hx2.2⟩
        · exact htr e (List.mem_cons_of_mem _ hm)
      · rw [if_neg haf] at he
        rcases List.mem_cons.mp he with rfl | hm
        · exact htr _ (List.mem_cons_self _ _)
        · exact ih (fun e2 he2 => htr e2 (List.mem_cons_of_mem _ he2)) e hm

theorem foldl_incr2_ok {K : Type} [DecidableEq K] (ps : List (K × K))
    (tr : Assoc K (Assoc K Nat)) (P : K → Prop)
    (hps : ∀ p ∈ ps, P p.2)
    (htr : ∀ e ∈ tr, e.2 ≠ [] ∧ ∀ x ∈ e.2, P x.1 ∧ 1 ≤ x.2) :
    ∀ e ∈ ps.foldl (fun acc p => incr2 acc p.1 p.2) tr,
      e.2 ≠ [] ∧ ∀ x ∈ e.2, P x.1 ∧ 1 ≤ x.2 := by
  induction ps generalizing tr with
  | nil => exact htr
  | cons p pt ih =>
      rw [List.foldl_cons]
      exact ih _ (fun q hq => hps q (List.mem_cons_of_mem _ hq))
        (incr2_inner tr p.1 p.2 P htr (hps p (List.mem_cons_self _ _)))

theorem mem_of_tail {α : Type} {l : List α} {a : α} (h : a ∈ l.tail) : a ∈ l := by
  cases l with
  | nil => simp at h
  | cons x xs => exact List.mem_cons_of_mem _ h

theorem buildTransitions_ok (l : List Int) (P : Int → Prop) (hl : ∀ x ∈ l, P x) :
    ∀ e ∈ buildTransitions l, e.2 ≠ [] ∧ ∀ x ∈ e.2, P x.1 ∧ 1 ≤ x.2 := by
  refine foldl_incr2_ok _ [] P ?_ (by simp)
  intro p hp
  exact hl p.2 (mem_of_tail (List.of_mem_zip hp).2)

theorem markov_total (r : Nat) (hist : List (Int × Int))
    (hv : ∀ p ∈ hist, validRound p = true) :
    ∃ mv c, markov_predict r hist = some (mv, c) ∧
      (mv = 1 ∨ mv = 2 ∨ mv = 3) ∧ 0 ≤ c ∧ c ≤ 1 := by
  unfold markov_predict
  by_cases hlt : hist.length < 5
  · rw [if_pos hlt]
    exact ⟨choiceRPS r, 0, rfl, choiceRPS_mem r, le_refl 0, by norm_num⟩
  · rw [if_neg hlt]
    match hlast : (hist.map Prod.snd).getLast? with
    | none =>
        rw [List.getLast?_eq_none_iff] at hlast
        rw [List.map_eq_nil_iff] at hlast
        rw [hlast] at hlt
        simp at hlt
    | some last =>
        match hlk : lookupA (buildTransitions (hist.map Prod.snd)) last with
        | none =>
            refine ⟨choiceRPS r, 0, ?_, choiceRPS_mem r, le_refl 0, by norm_num⟩
            simp only [hlast, hlk]
        | some tc =>
            have hok := buildTransitions_ok (hist.map Prod.snd)
              (fun x => isValidMove x = true)
              (fun x hx => snd_valid_of_history hv hx)
              (last, tc) (lookupA_mem hlk)
            match hmc : mostCommon tc with
            | none =>
                exact absurd ((mostCommon_eq_none _).mp hmc) hok.1
            | some ⟨pm, pc⟩ =>
                have hpm := hok.2 (pm, pc) (mostCommon_mem hmc)
                obtain ⟨cc, hcc⟩ := COUNTER_valid hpm.1
                have hpc_le : pc ≤ sumCounts tc := entry_le_sumCounts (mostCommon_mem hmc)
                have hsum_pos : 0 < sumCounts tc := lt_of_lt_of_le hpm.2 hpc_le
                obtain ⟨hb1, hb2⟩ := ratio_bounds pc (sumCounts tc) hpc_le hsum_pos
                refine ⟨cc, (pc : ℚ) / ((sumCounts tc : Nat) : ℚ), ?_,
                  COUNTER_out hcc, hb1, hb2⟩
                simp only [hlast, hlk, hmc, hcc, Option.map_some']

theorem getD_mem_of_lt {α : Type} (l : List α) (i : Nat) (d : α) (h : i < l.length) :
    l.getD i d ∈ l := by
  rw [List.getD_eq_getElem?_getD, List.getElem?_eq_getElem h]
  exact List.getElem_mem h

theorem cycle_branch_total (pred : Int) (conf : ℚ) (st : ℚ × Option Int)
    (hpred : isValidMove pred = true) (hc0 : 0 ≤ conf) (hc1 : conf ≤ 1)
    (hst : 0 ≤ st.1 ∧ st.1 ≤ 1 ∧ ∀ mv, st.2 = some mv → mv = 1 ∨ mv = 2 ∨ mv = 3) :
    ∃ st2, (if conf > st.1 then (COUNTER pred).map (fun c => (conf, some c)) else some st)
        = some st2 ∧
      0 ≤ st2.1 ∧ st2.1 ≤ 1 ∧ ∀ mv, st2.2 = some mv → mv = 1 ∨ mv = 2 ∨ mv = 3 := by
  by_cases hgt : conf > st.1
  · rw [if_pos hgt]
    obtain ⟨cc, hcc⟩ := COUNTER_valid hpred
    refine ⟨(conf, some cc), by rw [hcc]; rfl, hc0, hc1, ?_⟩
    intro mv hmv
    simp only [Option.some.injEq] at hmv
    rw [← hmv]
    exact COUNTER_out hcc
  · rw [if_neg hgt]
    exact ⟨st, rfl, hst⟩

theorem cycleStep_total (opp : List Int) (hvo : ∀ x ∈ opp, isValidMove x = true)
    (st : ℚ × Option Int) (w : Nat) (hw : 1 ≤ w)
    (hst : 0 ≤ st.1 ∧ st.1 ≤ 1 ∧ ∀ mv, st.2 = some mv → mv = 1 ∨ mv = 2 ∨ mv = 3) :
    ∃ st2, cycleStep opp st w = some st2 ∧
      0 ≤ st2.1 ∧ st2.1 ≤ 1 ∧ ∀ mv, st2.2 = some mv → mv = 1 ∨ mv = 2 ∨ mv = 3 := by
  unfold cycleStep
  by_cases h1 : opp.length < w * 2
  · rw [if_pos h1]
    exact ⟨st, rfl, hst⟩
  · rw [if_neg h1]
    by_cases h2 : opp.drop (opp.length - w) = (opp.drop (opp.length - 2 * w)).take w
    · rw [if_pos h2]
      have hidx : opp.length - w < opp.length := by omega
      have hpred : isValidMove (opp.getD (opp.length - w) 0) = true :=
        hvo _ (getD_mem_of_lt opp _ 0 hidx)
      refine cycle_branch_total _ _ st hpred ?_ ?_ hst
      · refine le_min (by norm_num) ?_
        positivity
      · exact le_trans (min_le_left _ _) (by norm_num)
    · rw [if_neg h2]
      exact ⟨st, rfl, hst⟩

theorem foldlM_cycleStep_total (opp : List Int) (hvo : ∀ x ∈ opp, isValidMove x = true)
    (ws : List Nat) (hws : ∀ w ∈ ws, 1 ≤ w)
    (st : ℚ × Option Int)
    (hst : 0 ≤ st.1 ∧ st.1 ≤ 1 ∧ ∀ mv, st.2 = some mv → mv = 1 ∨ mv = 2 ∨ mv = 3) :
    ∃ fin2, List.foldlM (cycleStep opp) st ws = some fin2 ∧
      0 ≤ fin2.1 ∧ fin2.1 ≤ 1 ∧ ∀ mv, fin2.2 = some mv → mv = 1 ∨ mv = 2 ∨ mv = 3 := by
  induction ws generalizing st with
  | nil => exact ⟨st, rfl, hst⟩
  | cons w wt ih =>
      obtain ⟨st2, hstep, hinv2⟩ :=
        cycleStep_total opp hvo st w (hws w (List.mem_cons_self _ _)) hst
      obtain ⟨fin2, hrest, hinvf⟩ :=
        ih (fun w2 hw2 => hws _ (List.mem_cons_of_mem _ hw2)) st2 hinv2
      refine ⟨fin2, ?_, hinvf⟩
      rw [List.foldlM_cons, hstep]
      exact hrest

theorem wsls_fold_le (l : List ((Int × Int) × (Int × Int))) (acc : Nat × Nat)
    (h : acc.1 ≤ acc.2) :
    (l.foldl (fun (acc : Nat × Nat) pq =>
      if beats pq.1.2 pq.1.1 then
        (if pq.2.2 == pq.1.2 then (acc.1 + 1, acc.2 + 1) else (acc.1, acc.2 + 1))
      else if beats pq.1.1 pq.1.2 then
        (if pq.2.2 != pq.1.2 then (acc.1 + 1, acc.2 + 1) else (acc.1, acc.2 + 1))
      else acc) acc).1
    ≤ (l.foldl (fun (acc : Nat × Nat) pq =>
      if beats pq.1.2 pq.1.1 then
        (if pq.2.2 == pq.1.2 then (acc.1 + 1, acc.2 + 1) else (acc.1, acc.2 + 1))
      else if beats pq.1.1 pq.1.2 then
        (if pq.2.2 != pq.1.2 then (acc.1 + 1, acc.2 + 1) else (acc.1, acc.2 + 1))
      else acc) acc).2 := by
  induction l generalizing acc with
  | nil => exact h
  | cons pq pt ih =>
      rw [List.foldl_cons]
      apply ih
      split
      · split <;> simp <;> omega
      · split
        · split <;> simp <;> omega
        · exact h

theorem wslsCounts_le (hist : List (Int × Int)) :
    (wslsCounts hist).1 ≤ (wslsCounts hist).2 :=
  wsls_fold_le _ (0, 0) (le_refl 0)

theorem wslsPredict_ok (hist : List (Int × Int)) :
    0 ≤ (wslsPredict hist).1 ∧ (wslsPredict hist).1 ≤ 1 ∧
    ∀ mv, (wslsPredict hist).2 = some mv → mv = 1 ∨ mv = 2 ∨ mv = 3 := by
  unfold wslsPredict
  by_cases h4 : hist.length < 4
  · rw [if_pos h4]
    simp
  rw [if_neg h4]
  by_cases h3 : (wslsCounts hist).2 ≥ 3
  · rw [if_pos h3]
    obtain ⟨hc0, hc1⟩ :=
      ratio_bounds (wslsCounts hist).1 (wslsCounts hist).2 (wslsCounts_le hist) (by omega)
    match hlast : hist.getLast? with
    | none => simp
    | some lastRound =>
        simp only []
        by_cases hwin : (beats lastRound.2 lastRound.1 && (COUNTER lastRound.2).isSome) = true
        · rw [if_pos hwin]
          exact ⟨hc0, hc1, fun mv hmv => COUNTER_out hmv⟩
        · rw [if_neg hwin]
          match hmc : mostCommon
              ((switchTargets hist).filter (fun e => (COUNTER e.1).isSome)) with
          | none => exact ⟨hc0, hc1, by simp⟩
          | some ⟨pm, pc⟩ => exact ⟨hc0, hc1, fun mv hmv => COUNTER_out hmv⟩
  · rw [if_neg h3]
    simp

theorem sequence_total (r : Nat) (hist : List (Int × Int))
    (hv : ∀ p ∈ hist, validRound p = true) :
    ∃ mv c, sequence_predict r hist = some (mv, c) ∧
      (mv = 1 ∨ mv = 2 ∨ mv = 3) ∧ 0 ≤ c ∧ c ≤ 1 := by
  unfold sequence_predict
  by_cases h4 : hist.length < 4
  · rw [if_pos h4]
    exact ⟨choiceRPS r, 0, rfl, choiceRPS_mem r, le_refl 0, by norm_num⟩
  rw [if_neg h4]
  have hvo : ∀ x ∈ hist.map Prod.snd, isValidMove x = true :=
    fun x hx => snd_valid_of_history hv hx
  obtain ⟨cyc, hcyc, hinv0, hinv1, hinvm⟩ :=
    foldlM_cycleStep_total (hist.map Prod.snd) hvo [2, 3, 4] (by intro w hw; fin_cases hw <;> norm_num)
      ((0 : ℚ), (none : Option Int)) (by refine ⟨le_refl 0, by norm_num, by simp⟩)
  obtain ⟨hw0, hw1, hwmv⟩ := wslsPredict_ok hist
  simp only [hcyc]
  by_cases hsel : cyc.1 > (wslsPredict hist).1 ∧ cyc.2.isSome = true
  · rw [if_pos hsel]
    match hcm : cyc.2 with
    | none => rw [hcm] at hsel; simp at hsel
    | some mv =>
        refine ⟨mv, cyc.1, ?_, hinvm mv hcm, hinv0, hinv1⟩
        rfl
  · rw [if_neg hsel]
    match hw2 : (wslsPredict hist).2 with
    | some mv =>
        simp only []
        by_cases hpos : (wslsPredict hist).1 > 0
        · rw [if_pos hpos]
          exact ⟨mv, (wslsPredict hist).1, rfl, hwmv mv hw2, hw0, hw1⟩
        · rw [if_neg hpos]
          exact ⟨choiceRPS r, 0, rfl, choiceRPS_mem r, le_refl 0, by norm_num⟩
    | none =>
        exact ⟨choiceRPS r, 0, rfl, choiceRPS_mem r, le_refl 0, by norm_num⟩

/-- C10: on any history whose components all lie in {1,2,3}, the three RPS
predictors are total — no `COUNTER` dictionary lookup can raise — and each
returns a move in {1,2,3} with a confidence in [0,1]. -/
theorem predictors_total_on_valid (r1 r2 r3 : Nat) (hist : List (Int × Int))
    (hv : ∀ p ∈ hist, validRound p = true) :
    (∃ mv c, frequency_predict r1 hist = some (mv, c) ∧
      (mv = 1 ∨ mv = 2 ∨ mv = 3) ∧ 0 ≤ c ∧ c ≤ 1) ∧
    (∃ mv c, markov_predict r2 hist = some (mv, c) ∧
      (mv = 1 ∨ mv = 2 ∨ mv = 3) ∧ 0 ≤ c ∧ c ≤ 1) ∧
    (∃ mv c, sequence_predict r3 hist = some (mv, c) ∧
      (mv = 1 ∨ mv = 2 ∨ mv = 3) ∧ 0 ≤ c ∧ c ≤ 1) :=
  ⟨frequency_total r1 hist hv, markov_total r2 hist hv, sequence_total r3 hist hv⟩

/-- Witness for C10: a concrete five-round valid history. -/
theorem predictors_total_on_valid_witness :
    (∃ mv c, frequency_predict 0 [(1, 2), (2, 3), (3, 1), (1, 1), (2, 2)] = some (mv, c) ∧
      (mv = 1 ∨ mv = 2 ∨ mv = 3) ∧ 0 ≤ c ∧ c ≤ 1) ∧
    (∃ mv c, markov_predict 0 [(1, 2), (2, 3), (3, 1), (1, 1), (2, 2)] = some (mv, c) ∧
      (mv = 1 ∨ mv = 2 ∨ mv = 3) ∧ 0 ≤ c ∧ c ≤ 1) ∧
    (∃ mv c, sequence_predict 0 [(1, 2), (2, 3), (3, 1), (1, 1), (2, 2)] = some (mv, c) ∧
      (mv = 1 ∨ mv = 2 ∨ mv = 3) ∧ 0 ≤ c ∧ c ≤ 1) :=
  predictors_total_on_valid 0 0 0 [(1, 2), (2, 3), (3, 1), (1, 1), (2, 2)] (by decide)

/-! ## Concrete instantiations of the hypothesis-free claim theorems -/

/-- Witness for C1 at a concrete call sequence containing an invalid pair. -/
theorem update_counts_invariant_witness :
    sumCounts ((([⟨[(1, 2), (7, 9), (3, 3)], some true, 2, 1, 5⟩,
          ⟨[], some false, 0, 3, 6⟩] : List UpdateCall).foldl applyUpdateCall
        (mkOpponentModel "a")).move_counts)
      = ((([⟨[(1, 2), (7, 9), (3, 3)], some true, 2, 1, 5⟩,
          ⟨[], some false, 0, 3, 6⟩] : List UpdateCall).foldl applyUpdateCall
        (mkOpponentModel "a")).round_history).length ∧
    ∀ p ∈ (([⟨[(1, 2), (7, 9), (3, 3)], some true, 2, 1, 5⟩,
          ⟨[], some false, 0, 3, 6⟩] : List UpdateCall).foldl applyUpdateCall
        (mkOpponentModel "a")).round_history,
      validRound p = true :=
  update_counts_invariant "a"
    [⟨[(1, 2), (7, 9), (3, 3)], some true, 2, 1, 5⟩, ⟨[], some false, 0, 3, 6⟩]

/-- Witness for C3 at a concrete mixed sequence of public update calls. -/
theorem to_dict_from_dict_roundtrip_witness :
    OpponentModel.from_dict (OpponentModel.to_dict
        (([.upd [(1, 2), (2, 3)] (some true) 2 1 5,
           .rps "markov" "wins",
           .poker 42 3 false true 100 6,
           .auction 55 100 false 7] : List ModelOp).foldl applyOp
          (mkOpponentModel "0xAbC")))
      = ([.upd [(1, 2), (2, 3)] (some true) 2 1 5,
          .rps "markov" "wins",
          .poker 42 3 false true 100 6,
          .auction 55 100 false 7] : List ModelOp).foldl applyOp
          (mkOpponentModel "0xAbC") :=
  to_dict_from_dict_roundtrip "0xAbC"
    [.upd [(1, 2), (2, 3)] (some true) 2 1 5,
     .rps "markov" "wins",
     .poker 42 3 false true 100 6,
     .auction 55 100 false 7]

/-- Witness for C6 at a history containing an out-of-domain pair. -/
theorem update_filters_invalid_rounds_witness :
    ((mkOpponentModel "a").update [(1, 2), (5, 9), (3, 3)] (some true) 2 1 99).match_results
        = (mkOpponentModel "a").match_results ++ [⟨true, 2, 1, 99⟩] ∧
    ((mkOpponentModel "a").update [(1, 2), (5, 9), (3, 3)] (some true) 2 1 99).move_counts
        = addMoveCounts (mkOpponentModel "a").move_counts
            ([(1, 2), (5, 9), (3, 3)].filter validRound) ∧
    ((mkOpponentModel "a").update [(1, 2), (5, 9), (3, 3)] (some true) 2 1 99).transitions
        = addTransitions (mkOpponentModel "a").transitions
            (([(1, 2), (5, 9), (3, 3)].filter validRound).map Prod.snd) ∧
    ((mkOpponentModel "a").update [(1, 2), (5, 9), (3, 3)] (some true) 2 1 99).round_history
        = (mkOpponentModel "a").round_history ++ [(1, 2), (5, 9), (3, 3)].filter validRound :=
  update_filters_invalid_rounds (mkOpponentModel "a") [(1, 2), (5, 9), (3, 3)] true 2 1 99

/-- Witness for C9 at a concrete history with `won = None`. -/
theorem update_none_keeps_match_results_witness :
    ((mkOpponentModel "a").update [(1, 2), (5, 9), (3, 3)] none 2 1 99).match_results
        = (mkOpponentModel "a").match_results ∧
    ((mkOpponentModel "a").update [(1, 2), (5, 9), (3, 3)] none 2 1 99).get_total_games
        = (mkOpponentModel "a").get_total_games ∧
    ((mkOpponentModel "a").update [(1, 2), (5, 9), (3, 3)] none 2 1 99).get_win_rate
        = (mkOpponentModel "a").get_win_rate ∧
    ((mkOpponentModel "a").update [(1, 2), (5, 9), (3, 3)] none 2 1 99).move_counts
        = addMoveCounts (mkOpponentModel "a").move_counts
            ([(1, 2), (5, 9), (3, 3)].filter validRound) ∧
    ((mkOpponentModel "a").update [(1, 2), (5, 9), (3, 3)] none 2 1 99).transitions
        = addTransitions (mkOpponentModel "a").transitions
            (([(1, 2), (5, 9), (3, 3)].filter validRound).map Prod.snd) ∧
    ((mkOpponentModel "a").update [(1, 2), (5, 9), (3, 3)] none 2 1 99).round_history
        = (mkOpponentModel "a").round_history ++ [(1, 2), (5, 9), (3, 3)].filter validRound :=
  update_none_keeps_match_results (mkOpponentModel "a") [(1, 2), (5, 9), (3, 3)] 2 1 99
